import Mathlib

/-!
Verification of the `ada-mcp-server` bridge (Python) against its
natural-language specification.

The development shallowly embeds the parts of the source that the claims
talk about:

* `src/ada_mcp/utils/uri.py` — path ↔ `file://` URI conversion;
* `src/ada_mcp/als/client.py` — the pending-request table, the diagnostics
  store and the shutdown sequence of `ALSClient`;
* `src/ada_mcp/tools/diagnostics.py` — the diagnostics tool and its
  severity filter;
* `src/ada_mcp/tools/navigation.py` — goto-definition / hover /
  find-references translators and the module-level open-files cache;
* `src/ada_mcp/tools/refactoring.py` — the completions translator and the
  rename tool with its Ada-identifier validation;
* `src/ada_mcp/server.py` — the `ALSPool` LRU instance pool and the
  dispatcher's exception net;
* the project-root detector (imported by `server.py` from
  `ada_mcp.als.process` but absent from the source tree), modelled from the
  specification.

Python dictionaries are embedded as association lists in insertion order,
JSON values as the inductive `JVal`, and exceptions as `Except` with the
error type `PyErr`.  Stateful code is embedded as explicit state passing.
-/

namespace AdaMcp

/-! ## Association lists (Python `dict` in insertion order) -/

/-- Lookup of the first binding of `k`, as Python `d.get(k)` / `k in d`. -/
def alGet {κ α : Type} [DecidableEq κ] : List (κ × α) → κ → Option α
  | [], _ => none
  | (k', v) :: rest, k => if k' = k then some v else alGet rest k

/-- Assignment `d[k] = v`: replaces the existing binding in place, else
appends at the end (Python dicts preserve insertion order). -/
def alSet {κ α : Type} [DecidableEq κ] : List (κ × α) → κ → α → List (κ × α)
  | [], k, v => [(k, v)]
  | (k', v') :: rest, k, v =>
      if k' = k then (k, v) :: rest else (k', v') :: alSet rest k v

/-- Removal `d.pop(k, None)`: drops the binding of `k` when present. -/
def alErase {κ α : Type} [DecidableEq κ] : List (κ × α) → κ → List (κ × α)
  | [], _ => []
  | (k', v') :: rest, k =>
      if k' = k then rest else (k', v') :: alErase rest k

/-- Keys in insertion order, as Python `list(d.keys())`. -/
def alKeys {κ α : Type} (l : List (κ × α)) : List κ :=
  l.map Prod.fst

theorem alGet_alSet_same {κ α : Type} [DecidableEq κ] (l : List (κ × α)) (k : κ) (v : α) :
    alGet (alSet l k v) k = some v := by
  induction l with
  | nil => simp [alSet, alGet]
  | cons hd tl ih =>
      by_cases h : hd.1 = k
      · simp [alSet, alGet, h]
      · simp [alSet, alGet, h, ih]

theorem alGet_alSet_other {κ α : Type} [DecidableEq κ] (l : List (κ × α)) (k k' : κ) (v : α)
    (h : k ≠ k') : alGet (alSet l k v) k' = alGet l k' := by
  induction l with
  | nil => simp [alSet, alGet, h]
  | cons hd tl ih =>
      by_cases hh : hd.1 = k
      · simp [alSet, alGet, hh, h]
      · by_cases hk : hd.1 = k'
        · simp [alSet, alGet, hh, hk, Ne.symm h]
        · simp [alSet, alGet, hh, hk, ih]

theorem alSet_length_mem {κ α : Type} [DecidableEq κ] (l : List (κ × α)) (k : κ) (v : α)
    (h : (alGet l k).isSome) : (alSet l k v).length = l.length := by
  induction l with
  | nil => simp [alGet] at h
  | cons hd tl ih =>
      by_cases hh : hd.1 = k
      · simp [alSet, hh]
      · simp [alGet, hh] at h
        simp [alSet, hh, ih h]

theorem alSet_length_notMem {κ α : Type} [DecidableEq κ] (l : List (κ × α)) (k : κ) (v : α)
    (h : alGet l k = none) : (alSet l k v).length = l.length + 1 := by
  induction l with
  | nil => simp [alSet]
  | cons hd tl ih =>
      by_cases hh : hd.1 = k
      · simp [alGet, hh] at h
      · simp [alGet, hh] at h
        simp [alSet, hh, ih h]

theorem alErase_length_mem {κ α : Type} [DecidableEq κ] (l : List (κ × α)) (k : κ)
    (h : (alGet l k).isSome) : (alErase l k).length + 1 = l.length := by
  induction l with
  | nil => simp [alGet] at h
  | cons hd tl ih =>
      by_cases hh : hd.1 = k
      · simp [alErase, hh]
      · simp [alGet, hh] at h
        simp [alErase, hh, ih h]

theorem alErase_append_notMem {κ α : Type} [DecidableEq κ] (l : List (κ × α)) (k : κ) (v : α)
    (h : alGet l k = none) : alErase (l ++ [(k, v)]) k = l := by
  induction l with
  | nil => simp [alErase]
  | cons hd tl ih =>
      by_cases hh : hd.1 = k
      · simp [alGet, hh] at h
      · simp [alGet, hh] at h
        simp [alErase, hh, ih h]

/-! ## JSON values and Python exceptions -/

/-- JSON values, covering the payloads exchanged with the language server.
Objects are association lists in insertion order. -/
inductive JVal where
  | str (s : String)
  | num (n : Int)
  | bool (b : Bool)
  | null
  | arr (items : List JVal)
  | obj (fields : List (String × JVal))
  deriving Repr

/-- Python truthiness of a JSON value: `None`, `False`, `0`, `""`, `[]` and
an empty dict are falsy. -/
def JVal.isFalsy : JVal → Bool
  | .str s => s.isEmpty
  | .num n => n == 0
  | .bool b => !b
  | .null => true
  | .arr items => items.isEmpty
  | .obj fields => fields.isEmpty

/-- Field lookup on an object; `none` on other shapes or missing keys. -/
def JVal.get? : JVal → String → Option JVal
  | .obj fields, k => alGet fields k
  | _, _ => none

/-- Python `d.get(k, dflt)` on a dict-shaped value (callers below only use
it after an `isinstance(…, dict)`-style check). -/
def jget (v : JVal) (k : String) (dflt : JVal) : JVal :=
  (v.get? k).getD dflt

/-- The `LSPError` exception of `als/client.py` (lines 16-23): a code, a
message and optional data (the data plays no role in the claims). -/
structure LSPErr where
  code : Int
  message : String
  deriving Repr, DecidableEq

/-- Uncaught Python exceptions escaping an embedded function. -/
inductive PyErr where
  /-- An `LSPError` raised by `send_request` that no translator caught. -/
  | lsp (e : LSPErr)
  /-- A `ValueError`, as raised by `uri_to_file` on a non-`file://` URI. -/
  | valueError (msg : String)
  /-- A `TypeError`, e.g. `str.join` over non-string parts. -/
  | typeError
  /-- A `KeyError` from direct `d[k]` indexing. -/
  | keyError (k : String)
  /-- An `AttributeError`, e.g. `.get` called on a non-dict. -/
  | attributeError
  deriving Repr, DecidableEq

/-- Python `str(e)` for an `LSPError`: its constructor calls
`super().__init__(f"LSP Error {code}: {message}")`. -/
def lspErrorStr (e : LSPErr) : String :=
  "LSP Error " ++ toString e.code ++ ": " ++ e.message

/-! ## `utils/uri.py` — path ↔ `file://` URI conversion

`file_to_uri` is `Path(file_path).resolve().as_uri()`; on POSIX `as_uri()`
is `"file://" + quote_from_bytes(bytes(path))` with `safe = "/"`.
`uri_to_file` is `urlparse` + scheme check + `unquote` + a Windows
drive-letter fixup.  Byte-level percent coding is embedded at the
character level; it agrees with CPython exactly on ASCII text, which is
what the theorems below assume. -/

/-- Characters `quote_from_bytes` leaves unescaped: urllib's always-safe
set (ASCII letters, digits, `_.-~`) plus the default safe character `/`. -/
def quoteSafe (c : Char) : Bool :=
  c.isAlphanum || c == '_' || c == '.' || c == '-' || c == '~' || c == '/'

/-- Uppercase hex digit for a value below 16 (urllib escapes with
uppercase hex). -/
def hexDigitChar (n : Nat) : Char :=
  if n < 10 then Char.ofNat (48 + n) else Char.ofNat (55 + n)

/-- Percent-escape of one character, as `quote_from_bytes` does per byte
(exact for ASCII). -/
def percentEncodeChar (c : Char) : List Char :=
  if quoteSafe c then [c]
  else ['%', hexDigitChar (c.toNat / 16 % 16), hexDigitChar (c.toNat % 16)]

/-- Percent-escaping of a whole path. -/
def percentEncode : List Char → List Char
  | [] => []
  | c :: rest => percentEncodeChar c ++ percentEncode rest

/-- Value of a hex digit, either case, as `unquote` accepts. -/
def hexVal (c : Char) : Option Nat :=
  if '0' ≤ c ∧ c ≤ '9' then some (c.toNat - 48)
  else if 'A' ≤ c ∧ c ≤ 'F' then some (c.toNat - 55)
  else if 'a' ≤ c ∧ c ≤ 'f' then some (c.toNat - 87)
  else none

/-- Scanner for `unquote`, carrying the current head character: a `%`
followed by two hex digits decodes to that byte, a failed escape passes the
`%` through and rescans from the following character (CPython restarts at
the next `%`-delimited segment, which agrees with this rescan since hex
digits are never `%`). -/
def percentDecodeAux : Char → List Char → List Char
  | c, [] => [c]
  | c, d :: rest =>
      if c = '%' then
        if d = '%' then c :: percentDecodeAux d rest
        else
          match rest with
          | [] => [c, d]
          | h2 :: rest2 =>
              match hexVal d, hexVal h2 with
              | some a, some b =>
                  match rest2 with
                  | [] => [Char.ofNat (16 * a + b)]
                  | e :: rest3 => Char.ofNat (16 * a + b) :: percentDecodeAux e rest3
              | _, _ => c :: d :: percentDecodeAux h2 rest2
      else c :: percentDecodeAux d rest

/-- Models `urllib.parse.unquote` (exact for ASCII bytes). -/
def percentDecode : List Char → List Char
  | [] => []
  | c :: rest => percentDecodeAux c rest

/-- Scheme characters accepted by `urlparse` after the leading letter. -/
def schemeChar (c : Char) : Bool :=
  c.isAlphanum || c == '+' || c == '-' || c == '.'

/-- Splits a URL at its first `:`; accumulator holds the scanned prefix in
reverse. -/
def splitSchemeAux (acc : List Char) : List Char → Option (List Char × List Char)
  | [] => none
  | c :: rest => if c == ':' then some (acc.reverse, rest) else splitSchemeAux (c :: acc) rest

/-- Whether a candidate scheme is valid for `urlparse`: nonempty, starts
with a letter, rest scheme characters. -/
def validScheme : List Char → Bool
  | [] => false
  | c :: rest => c.isAlpha && rest.all schemeChar

/-- Result of the `urlparse` fragment the converter relies on. -/
structure UrlParts where
  scheme : List Char
  netloc : List Char
  path : List Char

/-- The `;params` split `urlparse` applies to the path: the first `;` at or
after the last `/` starts the params, which are cut off. -/
def splitParams (url : List Char) : List Char :=
  let revSpan := url.reverse.span (fun c => !(c == '/'))
  let post := revSpan.1.reverse
  let pre := revSpan.2.reverse
  let semiSpan := post.span (fun c => !(c == ';'))
  if semiSpan.2.isEmpty then url else pre ++ semiSpan.1

/-- Models `urllib.parse.urlparse` far enough for `uri_to_file`: lowercased
scheme before the first `:` when well-formed, `//`-introduced netloc up to
the next `/`, `?` or `#`, and the path up to `?`/`#` with params removed. -/
def urlparsePath (chars : List Char) : UrlParts :=
  let schemeRest : List Char × List Char :=
    match splitSchemeAux [] chars with
    | some (s, r) => if validScheme s then (s.map Char.toLower, r) else ([], chars)
    | none => ([], chars)
  let netlocRest : List Char × List Char :=
    if schemeRest.2.take 2 = ['/', '/'] then
      let r := schemeRest.2.drop 2
      (r.takeWhile (fun c => !(c == '/' || c == '?' || c == '#')),
       r.dropWhile (fun c => !(c == '/' || c == '?' || c == '#')))
    else ([], schemeRest.2)
  let pathq := netlocRest.2.takeWhile (fun c => !(c == '?' || c == '#'))
  ⟨schemeRest.1, netlocRest.1, splitParams pathq⟩

/-- The Windows fixup of `uri_to_file` (lines 40-44): strip the leading
slash of `/C:/path`-shaped decoded paths. -/
def stripDrive (path : List Char) : List Char :=
  match path with
  | a :: b :: c :: rest => if a = '/' ∧ c = ':' then b :: c :: rest else a :: b :: c :: rest
  | p => p

/-- Embeds `uri_to_file` of `utils/uri.py` (lines 22-45): parse the URI,
require scheme `file` (else `ValueError`), percent-decode the path, apply
the drive-letter fixup. -/
def uriToFileChars (uri : List Char) : Except PyErr (List Char) :=
  let parts := urlparsePath uri
  if parts.scheme = "file".data then
    .ok (stripDrive (percentDecode parts.path))
  else
    .error (.valueError ("Expected file:// URI, got: " ++ String.mk uri))

/-- Embeds `file_to_uri` of `utils/uri.py` (lines 7-19) on an absolute
canonical path, where `Path.resolve()` — the function's only filesystem
access — is the identity and `as_uri()` is prefixing `file://` to the
percent-escaped path. -/
def fileToUriChars (p : List Char) : List Char :=
  "file://".data ++ percentEncode p

/-- String-level `file_to_uri`. -/
def file_to_uri (p : String) : String :=
  String.mk (fileToUriChars p.data)

/-- String-level `uri_to_file`. -/
def uri_to_file (uri : String) : Except PyErr String :=
  (uriToFileChars uri.data).map String.mk

/-! ## `als/types.py` — LSP data types -/

/-- LSP diagnostic severity levels (`als/types.py` lines 8-14). -/
inductive DiagnosticSeverity where
  | ERROR
  | WARNING
  | INFORMATION
  | HINT
  deriving Repr, DecidableEq

/-- LSP position, 0-based on the wire (`als/types.py` lines 48-60). -/
structure Position where
  line : Int
  character : Int
  deriving Repr, DecidableEq

/-- LSP range (`als/types.py` lines 63-75); `end` is a Lean keyword, so the
field is `end_`. -/
structure Range where
  start : Position
  end_ : Position
  deriving Repr, DecidableEq

/-- LSP diagnostic (`als/types.py` lines 93-111). -/
structure Diagnostic where
  range : Range
  message : String
  severity : DiagnosticSeverity
  code : Option String
  source : Option String
  deriving Repr, DecidableEq

/-! ## `als/client.py` — pending-request table, diagnostics store, shutdown

The client's mutable state is embedded as an explicit record; each source
operation becomes a pure function on it.  `pending` is the
`_pending_requests` table restricted to what matters here: the id and the
method of each still-unresolved waiter (the `asyncio.Future` itself has no
further observable content while pending).  `failedWaiters` records every
`future.set_exception(LSPError …)` call, so a theorem can state which
waiters were ever resolved with an error. -/

structure ClientState where
  requestId : Nat
  pending : List (Nat × String)
  failedWaiters : List (Nat × LSPErr)
  processRunning : Bool
  readerCancelled : Bool
  deriving Repr, DecidableEq

/-- A fresh client (`ALSClient.__init__`, lines 29-39): id counter 0, empty
pending table, live process, reader not cancelled. -/
def initClientState : ClientState :=
  { requestId := 0, pending := [], failedWaiters := [],
    processRunning := true, readerCancelled := false }

/-- Embeds the dispatch part of `ALSClient.send_request` (lines 51-71):
raise `LSPError(-1, "ALS process is not running")` when the subprocess is
gone, else allocate the next id (`self._request_id += 1`), insert a pending
waiter and write the frame.  Returns the new state and the allocated id. -/
def send_request_start (s : ClientState) (method : String) :
    Except LSPErr (ClientState × Nat) :=
  if !s.processRunning then
    .error ⟨-1, "ALS process is not running"⟩
  else
    let id := s.requestId + 1
    .ok ({ s with requestId := id, pending := s.pending ++ [(id, method)] }, id)

/-- Embeds the response branch of `_handle_message` (lines 157-176): pop
the waiter for the id (responses for unknown ids are logged and dropped);
an `error` member fails the waiter with a typed `LSPError`, otherwise the
waiter is resolved with the result.  Returns the new state and what the
waiter observed (`none` when no waiter was registered). -/
def handle_response (s : ClientState) (id : Nat) (error : Option LSPErr) (result : JVal) :
    ClientState × Option (Except LSPErr JVal) :=
  match alGet s.pending id with
  | none => (s, none)
  | some _ =>
      match error with
      | some e =>
          ({ s with pending := alErase s.pending id,
                    failedWaiters := s.failedWaiters ++ [(id, e)] },
           some (.error e))
      | none => ({ s with pending := alErase s.pending id }, some (.ok result))

/-- Embeds the timeout arm of `send_request` (lines 73-78): the pending
entry is popped and `LSPError(-1, "Request <method> timed out")` is raised
to the caller. -/
def request_timeout (s : ClientState) (id : Nat) (method : String) :
    ClientState × LSPErr :=
  ({ s with pending := alErase s.pending id },
   ⟨-1, "Request " ++ method ++ " timed out"⟩)

/-- Subprocess exit.  No code in `als/client.py` reacts to it beyond the
`is_running` property turning false: the read loop merely returns on EOF
(lines 118-121) and nothing resolves, fails or removes pending waiters. -/
def process_exit (s : ClientState) : ClientState :=
  { s with processRunning := false }

/-- Embeds `ALSClient.shutdown` (lines 241-256).  When the process is
running it best-effort performs `send_request "shutdown"` — whose own
pending entry is created and later removed again when its response arrives
or its 30 s timeout fires, chosen by `internalResp` (`none` = timeout,
`some err` = response with optional error) — followed by the stateless
`exit` notification; any exception is swallowed.  It then cancels the
reader task.  Pre-existing pending waiters are not touched. -/
def client_shutdown (s : ClientState) (internalResp : Option (Option LSPErr)) :
    ClientState :=
  let s1 :=
    if s.processRunning then
      match send_request_start s "shutdown" with
      | .error _ => s
      | .ok sr =>
          match internalResp with
          | none => (request_timeout sr.1 sr.2 "shutdown").1
          | some err => (handle_response sr.1 sr.2 err .null).1
    else s
  { s1 with readerCancelled := true }

/-- The diagnostics store `self._diagnostics : dict[str, list[Diagnostic]]`. -/
abbrev DiagStore := List (String × List Diagnostic)

/-- Embeds `_handle_diagnostics` (lines 192-202): the store entry for the
notification's URI is replaced by the freshly parsed list. -/
def handle_diagnostics_notif (store : DiagStore) (uri : String)
    (diagnostics : List Diagnostic) : DiagStore :=
  alSet store uri diagnostics

/-- Embeds `ALSClient.get_diagnostics` (lines 223-239): snapshot of the
store, restricted to one URI when given (missing URIs yield `[]`), then
optionally filtered by exact severity. -/
def get_diagnostics (store : DiagStore) (uri : Option String)
    (severity : Option DiagnosticSeverity) : DiagStore :=
  let snapshot := match uri with
    | some u => [(u, (alGet store u).getD [])]
    | none => store
  match severity with
  | none => snapshot
  | some sev => snapshot.map (fun p => (p.1, p.2.filter (fun d => d.severity == sev)))

/-- Folds a sequence of `publishDiagnostics` notifications (uri, parsed
diagnostics) into a store that starts empty. -/
def runDiagnosticsNotifs (notifs : List (String × List Diagnostic)) : DiagStore :=
  notifs.foldl (fun st p => handle_diagnostics_notif st p.1 p.2) []

/-- The payload of the last notification a given URI received, if any. -/
def lastNotifFor (uri : String) (notifs : List (String × List Diagnostic)) :
    Option (List Diagnostic) :=
  ((notifs.filter (fun p => p.1 == uri)).getLast?).map Prod.snd

/-! ## `tools/diagnostics.py` — the diagnostics tool -/

/-- Python `str.lower()`, character by character (exact for the ASCII
severity strings this is applied to). -/
def strLower (s : String) : String :=
  String.mk (s.data.map Char.toLower)

/-- Embeds `_get_severity_filter` (lines 88-100): `"all"` means no filter;
anything else is a lowercased lookup in the severity map, which yields
`None` — hence also no filter — for unknown strings. -/
def get_severity_filter (severity : String) : Option (List DiagnosticSeverity) :=
  if severity = "all" then none
  else if strLower severity = "error" then some [.ERROR]
  else if strLower severity = "warning" then some [.WARNING]
  else if strLower severity = "hint" then some [.HINT, .INFORMATION]
  else if strLower severity = "info" then some [.INFORMATION]
  else none

/-- Embeds `_severity_to_string` (lines 103-110). -/
def severity_to_string : DiagnosticSeverity → String
  | .ERROR => "error"
  | .WARNING => "warning"
  | .INFORMATION => "info"
  | .HINT => "hint"

/-- One row of the diagnostics tool output (lines 65-77), with the
`diag.source or "ada"` fallback for a missing or empty source. -/
def diagnosticRow (filePath : String) (d : Diagnostic) : JVal :=
  .obj [("file", .str filePath),
        ("line", .num (d.range.start.line + 1)),
        ("column", .num (d.range.start.character + 1)),
        ("endLine", .num (d.range.end_.line + 1)),
        ("endColumn", .num (d.range.end_.character + 1)),
        ("severity", .str (severity_to_string d.severity)),
        ("message", .str d.message),
        ("code", match d.code with | some c => .str c | none => .null),
        ("source", .str (match d.source with
          | some src => if src.isEmpty then "ada" else src
          | none => "ada"))]

/-- The inner loop body of `handle_diagnostics` (lines 50-77): skip when a
truthy filter excludes the severity, else count and append the row.
Accumulator: (rows, errorCount, warningCount, hintCount). -/
def diagCountsStep (filt : Option (List DiagnosticSeverity)) (filePath : String)
    (acc : List JVal × Nat × Nat × Nat) (d : Diagnostic) :
    List JVal × Nat × Nat × Nat :=
  let skip := match filt with
    | none => false
    | some l => !l.isEmpty && !(l.contains d.severity)
  if skip then acc
  else
    (acc.1 ++ [diagnosticRow filePath d],
     acc.2.1 + (if d.severity = .ERROR then 1 else 0),
     acc.2.2.1 + (if d.severity = .WARNING then 1 else 0),
     acc.2.2.2 + (if d.severity = .INFORMATION ∨ d.severity = .HINT then 1 else 0))

/-- The outer loop of `handle_diagnostics` (lines 47-77): per store entry,
convert the URI to a path (a non-`file://` key would raise, faithfully to
`uri_to_file`), then fold the inner loop. -/
def handle_diagnostics_entries (filt : Option (List DiagnosticSeverity)) :
    DiagStore → (List JVal × Nat × Nat × Nat) →
    Except PyErr (List JVal × Nat × Nat × Nat)
  | [], acc => .ok acc
  | (uri, diags) :: rest, acc => do
      let filePath ← uri_to_file uri
      handle_diagnostics_entries filt rest (diags.foldl (diagCountsStep filt filePath) acc)

/-- Embeds `handle_diagnostics` of `tools/diagnostics.py` (lines 13-85),
applied to a snapshot of the client diagnostics store. -/
def handle_diagnostics (store : DiagStore) (file : Option String)
    (severity : String) : Except PyErr JVal := do
  let allDiagnostics := match file with
    | some f => store.filter (fun p => p.1 == file_to_uri f)
    | none => store
  let filt := get_severity_filter severity
  let res ← handle_diagnostics_entries filt allDiagnostics ([], 0, 0, 0)
  .ok (.obj [("diagnostics", .arr res.1),
             ("errorCount", .num res.2.1),
             ("warningCount", .num res.2.2.1),
             ("hintCount", .num res.2.2.2),
             ("totalCount", .num res.1.length)])

/-! ## Python value helpers shared by the tool translators -/

/-- A single-quote character, written by code point to keep source quoting
unambiguous. -/
def sq : String := String.singleton (Char.ofNat 39)

/-- Left and right curly-brace strings, written by code point. -/
def braceL : String := String.singleton (Char.ofNat 123)

/-- Right curly brace. -/
def braceR : String := String.singleton (Char.ofNat 125)

mutual

/-- Rendering for the places where the source falls back to Python
`str(...)`: exact on strings, numbers, booleans and `None`; containers get
a bracketed rendering whose precise text no theorem depends on (the
fallback is only reachable on payload shapes outside the LSP protocol). -/
def pyStr : JVal → String
  | .str s => s
  | .num n => toString n
  | .bool b => if b then "True" else "False"
  | .null => "None"
  | .arr items => "[" ++ String.intercalate ", " (pyStrList items) ++ "]"
  | .obj fields => braceL ++ String.intercalate ", " (pyStrFields fields) ++ braceR

/-- List version of `pyStr`. -/
def pyStrList : List JVal → List String
  | [] => []
  | v :: rest => pyStr v :: pyStrList rest

/-- Field version of `pyStr`. -/
def pyStrFields : List (String × JVal) → List String
  | [] => []
  | (k, v) :: rest => (sq ++ k ++ sq ++ ": " ++ pyStr v) :: pyStrFields rest

end

/-- Bool test for one list being a contiguous prefix of another. -/
def listStartsWith : List Char → List Char → Bool
  | _, [] => true
  | [], _ :: _ => false
  | a :: as, b :: bs => a == b && listStartsWith as bs

/-- Bool substring test, for Python `needle in haystack` on strings. -/
def containsSub : List Char → List Char → Bool
  | [], needle => needle.isEmpty
  | a :: rest, needle => listStartsWith (a :: rest) needle || containsSub rest needle

/-- Python `k in v`: key membership on dicts, substring on strings,
element equality on lists; `TypeError` otherwise. -/
def pyIn (k : String) (v : JVal) : Except PyErr Bool :=
  match v with
  | .obj fields => .ok (alGet fields k).isSome
  | .str s => .ok (containsSub s.data k.data)
  | .arr items => .ok (items.any (fun x => match x with | .str s => s = k | _ => false))
  | _ => .error .typeError

/-- Python `v[k]`: `KeyError` on dicts missing the key, `TypeError` when
`v` is not a dict (string/list indices must be integers). -/
def jindex (v : JVal) (k : String) : Except PyErr JVal :=
  match v with
  | .obj fields =>
      match alGet fields k with
      | some x => .ok x
      | none => .error (.keyError k)
  | _ => .error .typeError

/-- Python `v.get(k, dflt)`: only dicts have `.get`; anything else raises
`AttributeError`. -/
def jgetE (v : JVal) (k : String) (dflt : JVal) : Except PyErr JVal :=
  match v with
  | .obj fields => .ok ((alGet fields k).getD dflt)
  | _ => .error .attributeError

/-- Python `v.get(k, dflt)` where the result feeds integer arithmetic; a
non-integer value would raise `TypeError` at the use site. -/
def jgetIntE (v : JVal) (k : String) (dflt : Int) : Except PyErr Int := do
  let x ← jgetE v k (.num dflt)
  match x with
  | .num n => .ok n
  | _ => .error .typeError

/-- A JSON string coerced for APIs that require `str` (such as `urlparse`);
other shapes raise `TypeError` there. -/
def jstrE (v : JVal) : Except PyErr String :=
  match v with
  | .str s => .ok s
  | _ => .error .typeError

/-- Items of an array payload.  The callers slice or iterate the value, so
protocol-shaped payloads are always arrays here; the `[]` fallback for
other shapes is never exercised by the theorems below. -/
def asArrD : JVal → List JVal
  | .arr items => items
  | _ => []

/-! ## `tools/navigation.py` — goto-definition, hover, find-references

Each translator is embedded as a function of the outcome of its single
`send_request` call (`Except LSPErr JVal`: a result or a raised
`LSPError`), plus an abstract read-only filesystem for the preview lines.
The `_ensure_file_open` prelude is stateful and is embedded separately
below for the open-files cache claims. -/

/-- Read-only filesystem abstraction: file path to contents, when the file
exists. -/
abbrev FileSys := String → Option String

/-- Python `str.splitlines` for `\n`-terminated text (the repository's
sources use only `\n` line endings). -/
def splitLines (s : String) : List String :=
  if s.isEmpty then []
  else
    let parts := s.splitOn "\n"
    if s.endsWith "\n" then parts.dropLast else parts

/-- Python `str.rstrip()`: drop trailing whitespace. -/
def rstrip (s : String) : String :=
  String.mk (s.data.reverse.dropWhile Char.isWhitespace).reverse

/-- Embeds `_get_line_preview` (navigation.py lines 421-433): missing file
or out-of-range line yields `""`, else the line trimmed of trailing
whitespace. -/
def get_line_preview (fs : FileSys) (filePath : String) (line0 : Int) : String :=
  match fs filePath with
  | none => ""
  | some text =>
      let lines := splitLines text
      if 0 ≤ line0 ∧ line0 < lines.length then
        rstrip (lines.getD line0.toNat "")
      else ""

/-- The Location / LocationLink normalization shared verbatim by
goto-definition, type-definition and implementation (navigation.py lines
63-71): returns (target uri, target range). -/
def normalize_location (location : JVal) : Except PyErr (JVal × JVal) := do
  let hasTarget ← pyIn "targetUri" location
  if hasTarget then
    let targetUri ← jindex location "targetUri"
    let inner ← jgetE location "targetRange" (.obj [])
    let targetRange ← jgetE location "targetSelectionRange" inner
    pure (targetUri, targetRange)
  else
    let targetUri ← jgetE location "uri" (.str "")
    let targetRange ← jgetE location "range" (.obj [])
    pure (targetUri, targetRange)

/-- The post-gate body shared by goto-definition, type-definition and
implementation (navigation.py lines 51-85): first location of a list
result, falsy-location gate, normalization, path conversion and preview. -/
def location_result (fs : FileSys) (result : JVal) : Except PyErr JVal := do
  let location := match result with
    | .arr items =>
        match items with
        | [] => JVal.null
        | x :: _ => x
    | v => v
  if location.isFalsy then
    .ok (.obj [("found", .bool false)])
  else
    let tr ← normalize_location location
    let start ← jgetE tr.2 "start" (.obj [])
    let uriS ← jstrE tr.1
    let targetFile ← uri_to_file uriS
    let line0 ← jgetIntE start "line" 0
    let col0 ← jgetIntE start "character" 0
    let preview := get_line_preview fs targetFile line0
    .ok (.obj [("found", .bool true),
               ("file", .str targetFile),
               ("line", .num (line0 + 1)),
               ("column", .num (col0 + 1)),
               ("preview", .str preview)])

/-- Embeds `handle_goto_definition` (navigation.py lines 13-85): an
`LSPError` from `send_request` is caught and becomes
`{found: false, error: message}`; a falsy result is `{found: false}`; else
the location body runs. -/
def handle_goto_definition (fs : FileSys) (resp : Except LSPErr JVal) :
    Except PyErr JVal :=
  match resp with
  | .error e => .ok (.obj [("found", .bool false), ("error", .str e.message)])
  | .ok result =>
      if result.isFalsy then .ok (.obj [("found", .bool false)])
      else location_result fs result

/-- One reference row of `handle_find_references` (lines 132-150). -/
def referenceRow (fs : FileSys) (loc : JVal) : Except PyErr JVal := do
  let uriJ ← jgetE loc "uri" (.str "")
  let rangeJ ← jgetE loc "range" (.obj [])
  let start ← jgetE rangeJ "start" (.obj [])
  let uriS ← jstrE uriJ
  let refFile ← uri_to_file uriS
  let line0 ← jgetIntE start "line" 0
  let col0 ← jgetIntE start "character" 0
  let preview := get_line_preview fs refFile line0
  .ok (.obj [("file", .str refFile),
             ("line", .num (line0 + 1)),
             ("column", .num (col0 + 1)),
             ("preview", .str preview)])

/-- Embeds `handle_find_references` (navigation.py lines 88-155): an
`LSPError` is caught into `{references: [], count: 0, error: message}`, a
falsy result gives the empty listing, else one row per location (the LS
always returns an array here; Python would likewise fail on anything
else). -/
def handle_find_references (fs : FileSys) (resp : Except LSPErr JVal) :
    Except PyErr JVal :=
  match resp with
  | .error e =>
      .ok (.obj [("references", .arr []), ("count", .num 0), ("error", .str e.message)])
  | .ok result =>
      if result.isFalsy then
        .ok (.obj [("references", .arr []), ("count", .num 0)])
      else
        match result with
        | .arr locs => do
            let rows ← locs.mapM (referenceRow fs)
            .ok (.obj [("references", .arr rows), ("count", .num rows.length)])
        | _ => .error .typeError

/-- Collects the parts of a `str.join` argument when all are strings. -/
def collectStrParts : List JVal → Option (List String)
  | [] => some []
  | .str s :: rest => (collectStrParts rest).map (fun l => s :: l)
  | _ :: _ => none

/-- Python `"\n".join(parts)`: `TypeError` when a part is not a string. -/
def joinParts (parts : List JVal) : Except PyErr String :=
  match collectStrParts parts with
  | some strs => .ok (String.intercalate "\n" strs)
  | none => .error .typeError

/-- One item of the hover `MarkedString[]` loop (navigation.py lines
362-367): strings pass through, dicts contribute `item.get("value",
str(item))`, anything else is skipped. -/
def markedPart : JVal → Option JVal
  | .str s => some (.str s)
  | .obj fields => some (jget (.obj fields) "value" (.str (pyStr (.obj fields))))
  | _ => none

/-- Embeds `handle_hover` (navigation.py lines 312-375): `LSPError`
becomes `{found: false, error: message}`, a falsy result `{found: false}`;
else `contents` is flattened — a string stays, a dict contributes its
`value` (default `str(contents)`), a list is joined with newlines, and any
other shape is stringified. -/
def handle_hover (resp : Except LSPErr JVal) : Except PyErr JVal :=
  match resp with
  | .error e => .ok (.obj [("found", .bool false), ("error", .str e.message)])
  | .ok result =>
      if result.isFalsy then .ok (.obj [("found", .bool false)])
      else do
        let contents := jget result "contents" (.obj [])
        let text ← match contents with
          | .str s => Except.ok (JVal.str s)
          | .obj fields => Except.ok (jget (.obj fields) "value" (.str (pyStr (.obj fields))))
          | .arr items => (joinParts (items.filterMap markedPart)).map JVal.str
          | v => Except.ok (JVal.str (pyStr v))
        .ok (.obj [("found", .bool true), ("contents", text)])

/-! ## `tools/refactoring.py` — completions and rename -/

/-- Embeds the `COMPLETION_ITEM_KIND` table (refactoring.py lines 20-46)
together with its `.get(kind_num, "Unknown")` use. -/
def completionKindName : JVal → String
  | .num 1 => "Text"
  | .num 2 => "Method"
  | .num 3 => "Function"
  | .num 4 => "Constructor"
  | .num 5 => "Field"
  | .num 6 => "Variable"
  | .num 7 => "Class"
  | .num 8 => "Interface"
  | .num 9 => "Module"
  | .num 10 => "Property"
  | .num 11 => "Unit"
  | .num 12 => "Value"
  | .num 13 => "Enum"
  | .num 14 => "Keyword"
  | .num 15 => "Snippet"
  | .num 16 => "Color"
  | .num 17 => "File"
  | .num 18 => "Reference"
  | .num 19 => "Folder"
  | .num 20 => "EnumMember"
  | .num 21 => "Constant"
  | .num 22 => "Struct"
  | .num 23 => "Event"
  | .num 24 => "Operator"
  | .num 25 => "TypeParameter"
  | _ => "Unknown"

/-- Embeds `_extract_documentation` (refactoring.py lines 128-137). -/
def extract_documentation : JVal → JVal
  | .null => .str ""
  | .str s => .str s
  | .obj fields => (alGet fields "value").getD (.str "")
  | v => .str (pyStr v)

/-- One completion row (refactoring.py lines 108-119). -/
def completionItemRow (item : JVal) : Except PyErr JVal := do
  let kindNum ← jgetE item "kind" (.num 1)
  let label ← jgetE item "label" (.str "")
  let detail ← jgetE item "detail" (.str "")
  let doc ← jgetE item "documentation" .null
  let insertDefault ← jgetE item "label" (.str "")
  let insertText ← jgetE item "insertText" insertDefault
  let sortText ← jgetE item "sortText" (.str "")
  .ok (.obj [("label", label),
             ("kind", .str (completionKindName kindNum)),
             ("detail", detail),
             ("documentation", extract_documentation doc),
             ("insert_text", insertText),
             ("sort_text", sortText)])

/-- Embeds `handle_completions` (refactoring.py lines 49-125).  Unlike the
navigation translators there is no `try/except` around `send_request`: a
raised `LSPError` leaves the function unhandled, which the embedding
returns as `Except.error (PyErr.lsp e)`. -/
def handle_completions (resp : Except LSPErr JVal) (limit : Nat) :
    Except PyErr JVal := do
  let result ← match resp with
    | .error e => Except.error (PyErr.lsp e)
    | .ok v => Except.ok v
  if result.isFalsy then
    .ok (.obj [("completions", .arr []), ("count", .num 0), ("is_incomplete", .bool false)])
  else
    let itemsIncomplete : List JVal × JVal := match result with
      | .obj fields =>
          (asArrD ((alGet fields "items").getD (.arr [])),
           (alGet fields "isIncomplete").getD (.bool false))
      | .arr items => (items, .bool false)
      | _ => ([], .bool false)
    do
      let rows ← (itemsIncomplete.1.take limit).mapM completionItemRow
      .ok (.obj [("completions", .arr rows),
                 ("count", .num rows.length),
                 ("is_incomplete", itemsIncomplete.2)])

/-- Python `str(e)` of an uncaught exception, as interpolated by the
dispatcher: exact for `LSPError`, whose constructor fixes the text;
`ValueError` carries its message; the renderings of the remaining kinds
are abbreviated (no theorem depends on them). -/
def pyErrStr : PyErr → String
  | .lsp e => lspErrorStr e
  | .valueError m => m
  | .typeError => "TypeError"
  | .keyError k => sq ++ k ++ sq
  | .attributeError => "AttributeError"

/-- Embeds the exception net of the dispatcher `call_tool` (server.py
lines 895-900): any exception a translator lets escape becomes an error
payload with the stringified exception and a context object — nothing
propagates past the tool boundary of the server. -/
def call_tool_wrap (context : JVal) (r : Except PyErr JVal) : JVal :=
  match r with
  | .ok v => v
  | .error e => .obj [("error", .str (pyErrStr e)), ("context", context)]

/-! ## `tools/navigation.py` — the module-level open-files cache

`_open_files` (line 379) is a module-level set shared by every client; the
state below also tracks the current client generation (bumped when the
pool's restart callback swaps the client, server.py lines 96-104, which
touches no cache) and a log of every `didOpen` notification actually sent,
tagged with the generation it was sent on. -/

structure NavState where
  openFiles : List String
  clientGen : Nat
  didOpenLog : List (Nat × String)
  deriving Repr, DecidableEq

/-- Embeds `_ensure_file_open` (navigation.py lines 382-418): cached URIs
return immediately; missing files are skipped with a warning; otherwise a
`didOpen` is sent and — when the notification call succeeds — the URI is
added to the cache. -/
def ensure_file_open (s : NavState) (filePath : String) (fileExists notifyOk : Bool) :
    NavState :=
  let fileUri := file_to_uri filePath
  if s.openFiles.contains fileUri then s
  else if !fileExists then s
  else if notifyOk then
    { s with openFiles := s.openFiles ++ [fileUri],
             didOpenLog := s.didOpenLog ++ [(s.clientGen, fileUri)] }
  else s

/-- Embeds `clear_open_files_cache` (navigation.py lines 436-438). -/
def clear_open_files_cache (s : NavState) : NavState :=
  { s with openFiles := [] }

/-- Events touching the cache: a positional-tool `_ensure_file_open` call,
a client restart, and the explicit (test-only) cache clear. -/
inductive NavEvent where
  | ensureOpen (filePath : String) (fileExists notifyOk : Bool)
  | restartClient
  | clearCache
  deriving Repr, DecidableEq

/-- Step function over `NavEvent`s: a restart bumps the generation only —
no source code clears `_open_files` on restart. -/
def navStep (s : NavState) : NavEvent → NavState
  | .ensureOpen f ex ok => ensure_file_open s f ex ok
  | .restartClient => { s with clientGen := s.clientGen + 1 }
  | .clearCache => clear_open_files_cache s

/-- Run from process start: empty cache, client generation 0. -/
def navRun (evs : List NavEvent) : NavState :=
  evs.foldl navStep { openFiles := [], clientGen := 0, didOpenLog := [] }

/-! ## `tools/refactoring.py` — Ada identifier validation and rename -/

/-- ASCII letter, the regex class `[A-Za-z]`. -/
def asciiAlpha (c : Char) : Bool :=
  ('A' ≤ c && c ≤ 'Z') || ('a' ≤ c && c ≤ 'z')

/-- The regex class `[A-Za-z0-9_]`. -/
def asciiWordChar (c : Char) : Bool :=
  asciiAlpha c || ('0' ≤ c && c ≤ '9') || c == '_'

/-- Full match of `[A-Za-z][A-Za-z0-9_]*` against a whole character list. -/
def adaPatternCore : List Char → Bool
  | [] => false
  | c :: rest => asciiAlpha c && rest.all asciiWordChar

/-- Models `ADA_IDENTIFIER_PATTERN.match(name)` being truthy
(refactoring.py line 291): the pattern is `^[A-Za-z][A-Za-z0-9_]*$`, and in
Python `re` the anchor `$` also matches just before one trailing newline,
so `"X\n"` matches while `"X\n\n"` does not. -/
def adaPatternMatch (name : String) : Bool :=
  adaPatternCore name.data ||
    (name.data.getLast? == some '\n' && adaPatternCore name.data.dropLast)

/-- Python `"__" in name`. -/
def hasDoubleUnderscore (name : String) : Bool :=
  containsSub name.data ['_', '_']

/-- Python `name.endswith("_")`. -/
def endsWithUnderscore (name : String) : Bool :=
  name.data.getLast? == some '_'

/-- Embeds `_is_valid_ada_identifier` (refactoring.py lines 294-307):
nonempty, matches the compiled pattern, no consecutive underscores, does
not end with an underscore. -/
def is_valid_ada_identifier (name : String) : Bool :=
  if name.isEmpty then false
  else if !adaPatternMatch name then false
  else if hasDoubleUnderscore name then false
  else if endsWithUnderscore name then false
  else true

/-- The rejection payload of `handle_rename_symbol` (lines 332-338). -/
def invalid_identifier_payload (newName : String) : JVal :=
  .obj [("success", .bool false),
        ("error", .str ("Invalid Ada identifier: " ++ sq ++ newName ++ sq)),
        ("changes", .arr []),
        ("total_changes", .num 0)]

/-- Embeds `from_lsp_position_dict` (utils/position.py lines 33-43):
direct `["line"]` / `["character"]` indexing plus the 1-based shift. -/
def from_lsp_position_dict (pos : JVal) : Except PyErr (Int × Int) := do
  let l ← jindex pos "line"
  let c ← jindex pos "character"
  let ln ← (match l with | .num n => Except.ok n | _ => Except.error PyErr.typeError)
  let cn ← (match c with | .num n => Except.ok n | _ => Except.error PyErr.typeError)
  .ok (ln + 1, cn + 1)

/-- One rename edit row (refactoring.py lines 394-404). -/
def renameEditRow (filePath : String) (oldName : JVal) (newName : String)
    (edit : JVal) : Except PyErr JVal := do
  let rangeJ ← jindex edit "range"
  let startJ ← jindex rangeJ "start"
  let lc ← from_lsp_position_dict startJ
  .ok (.obj [("file", .str filePath),
             ("line", .num lc.1),
             ("column", .num lc.2),
             ("old_text", oldName),
             ("new_text", .str newName)])

/-- The `changes` loop of `handle_rename_symbol` (lines 391-404): per URI
key, convert to a path and emit one row per edit. -/
def changesFromMap (oldName : JVal) (newName : String) :
    List (String × JVal) → Except PyErr (List JVal)
  | [] => .ok []
  | (uri, editsJ) :: rest => do
      let filePath ← uri_to_file uri
      let rows ← (asArrD editsJ).mapM (renameEditRow filePath oldName newName)
      let more ← changesFromMap oldName newName rest
      .ok (rows ++ more)

/-- The `documentChanges` loop (lines 406-421): entries with a
`textDocument` member contribute one row per edit. -/
def changesFromDocChanges (oldName : JVal) (newName : String) :
    List JVal → Except PyErr (List JVal)
  | [] => .ok []
  | dc :: rest => do
      let hasTD ← pyIn "textDocument" dc
      let rows ← if hasTD then do
          let td ← jindex dc "textDocument"
          let uriJ ← jindex td "uri"
          let uriS ← jstrE uriJ
          let filePath ← uri_to_file uriS
          let edits ← jgetE dc "edits" (.arr [])
          (asArrD edits).mapM (renameEditRow filePath oldName newName)
        else pure []
      let more ← changesFromDocChanges oldName newName rest
      .ok (rows ++ more)

/-- The `file` field of a rename row, for the distinct-file count. -/
def renameRowFile (row : JVal) : String :=
  match row.get? "file" with
  | some (.str s) => s
  | _ => ""

/-- The success payload assembly of `handle_rename_symbol` (lines
387-434): rows from `changes` then `documentChanges`,
`files_affected = len(set(file for row in changes))`, `applied = not
preview`. -/
def renameChangesPayload (result : JVal) (oldName : JVal) (newName : String)
    (preview : Bool) : Except PyErr JVal := do
  let hasChanges ← pyIn "changes" result
  let part1 ← if hasChanges then do
      let ch ← jindex result "changes"
      match ch with
      | .obj chFields => changesFromMap oldName newName chFields
      | _ => Except.error PyErr.attributeError
    else pure []
  let hasDocChanges ← pyIn "documentChanges" result
  let part2 ← if hasDocChanges then do
      let dcs ← jindex result "documentChanges"
      changesFromDocChanges oldName newName (asArrD dcs)
    else pure []
  let changes := part1 ++ part2
  .ok (.obj [("success", .bool true),
             ("old_name", oldName),
             ("new_name", .str newName),
             ("changes", .arr changes),
             ("total_changes", .num changes.length),
             ("files_affected", .num ((changes.map renameRowFile).eraseDups).length),
             ("applied", .bool (!preview))])

/-- Embeds `handle_rename_symbol` (refactoring.py lines 310-434) as a
function of the outcomes of its two possible `send_request` calls.  The
first component lists the LSP request methods actually issued, so that "no
LSP request is issued" is an assertable fact; the second is the translator
outcome (`Except.error` = an exception left the translator). -/
def handle_rename_symbol (prepareResp renameResp : Except LSPErr JVal)
    (newName : String) (preview : Bool) : List String × Except PyErr JVal :=
  if !is_valid_ada_identifier newName then
    ([], .ok (invalid_identifier_payload newName))
  else
    let log1 := ["textDocument/prepareRename"]
    match prepareResp with
    | .error e => (log1, .error (.lsp e))
    | .ok prepareResult =>
        if prepareResult.isFalsy then
          (log1, .ok (.obj [("success", .bool false),
                            ("error", .str "Cannot rename symbol at this location"),
                            ("changes", .arr []),
                            ("total_changes", .num 0)]))
        else
          let oldName : JVal := match prepareResult with
            | .obj fields =>
                if (alGet fields "placeholder").isSome then
                  (alGet fields "placeholder").getD (.str "")
                else if (alGet fields "start").isSome then
                  jget (.obj fields) "placeholder" (.str "")
                else .str ""
            | _ => .str ""
          let log2 := log1 ++ ["textDocument/rename"]
          match renameResp with
          | .error e => (log2, .error (.lsp e))
          | .ok renameResult =>
              if renameResult.isFalsy then
                (log2, .ok (.obj [("success", .bool false),
                                  ("error", .str "Rename operation failed"),
                                  ("changes", .arr []),
                                  ("total_changes", .num 0)]))
              else
                (log2, renameChangesPayload renameResult oldName newName preview)

/-! ## Project-root detection (spec-modelled)

`server.py` line 17 imports `find_project_root` from `ada_mcp.als.process`
and calls it at line 123, but no module in the source tree defines it (the
tests only mock `ada_mcp.server.find_project_root`). -/

/-- Abstract filesystem for the detector.  Paths are segment lists with the
deepest segment first (`[]` is the filesystem root); `hasProjectMarker d`
says directory `d` contains an Alire manifest (`alire.toml`), some `*.gpr`
file, or a `.git` marker. -/
structure DetectFS where
  isDir : List String → Bool
  hasProjectMarker : List String → Bool

/-- Ancestors of a directory, nearest first, ending at the filesystem
root. -/
def ancestorChain : List String → List (List String)
  | [] => [[]]
  | seg :: rest => (seg :: rest) :: ancestorChain rest

/-- The walk's starting directory: the path itself when it is a directory,
else its parent — this is also the "original path's nearest directory" of
the fallback case. -/
def projStart (fs : DetectFS) (p : List String) : List String :=
  if fs.isDir p then p else p.tail

/-- Modelled from the spec: `find_project_root` is missing from the source
tree.  Spec §4.6: "Walk ancestor directories (including the starting
directory if it is a directory, else its parent) toward the filesystem
root.  Return the first ancestor that contains any of: an Alire manifest
(`alire.toml`), any `*.gpr` file, or a VCS root marker (`.git`).  If none
is found, return the original path's nearest directory." -/
def find_project_root (fs : DetectFS) (p : List String) : List String :=
  match (ancestorChain (projStart fs p)).find? fs.hasProjectMarker with
  | some d => d
  | none => projStart fs p

/-! ## `server.py` — the `ALSPool` LRU instance pool

`get_client` is embedded per project root (the root determination from
`ADA_PROJECT_ROOT` / `find_project_root` / cwd at lines 119-125 happens
before the pool logic and is covered by the detector model above).
`shutdown_als` is abstracted to recording the shut-down client in
`shutdownIds`; timestamps come from a logical clock that advances at each
`time.time()` call. -/

structure PoolInstance where
  clientId : Nat
  lastUsed : Nat
  isRunning : Bool
  deriving Repr, DecidableEq

structure PoolState where
  maxInstances : Nat
  instances : List (String × PoolInstance)
  nextClientId : Nat
  clock : Nat
  shutdownIds : List Nat
  deriving Repr, DecidableEq

/-- Embeds `ALSPool._shutdown_instance` (server.py lines 192-201): pop the
entry if present and shut its client down. -/
def shutdown_instance (s : PoolState) (root : String) : PoolState :=
  match alGet s.instances root with
  | none => s
  | some inst =>
      { s with instances := alErase s.instances root,
               shutdownIds := s.shutdownIds ++ [inst.clientId] }

/-- One iteration of the LRU scan of `_evict_if_needed` (lines 183-186):
strictly smaller `last_used` wins, the earlier entry in dict order wins
ties (`oldest_time` starts at infinity, so the first entry always loads). -/
def oldestStep (acc : Option (String × Nat)) (p : String × PoolInstance) :
    Option (String × Nat) :=
  match acc with
  | none => some (p.1, p.2.lastUsed)
  | some rt => if p.2.lastUsed < rt.2 then some (p.1, p.2.lastUsed) else some rt

/-- The LRU scan of `_evict_if_needed` (lines 179-188). -/
def oldestRoot (l : List (String × PoolInstance)) : Option String :=
  (l.foldl oldestStep none).map Prod.fst

/-- Embeds `ALSPool._evict_if_needed` (lines 173-190): nothing below
capacity; at or above capacity, shut down the least-recently-used entry
(when one exists). -/
def evict_if_needed (s : PoolState) : PoolState :=
  if s.instances.length < s.maxInstances then s
  else
    match oldestRoot s.instances with
    | none => s
    | some root => shutdown_instance s root

/-- The creation path of `get_client` (lines 140-167): evict if needed,
bootstrap a client (fresh id, running), insert, stamp `last_used`. -/
def pool_create_instance (s : PoolState) (projectRoot : String) : PoolState × Nat :=
  let s1 := evict_if_needed s
  let inst : PoolInstance := { clientId := s1.nextClientId, lastUsed := s1.clock, isRunning := true }
  ({ s1 with instances := alSet s1.instances projectRoot inst,
             nextClientId := s1.nextClientId + 1,
             clock := s1.clock + 1 },
   s1.nextClientId)

/-- Embeds `ALSPool.get_client` (server.py lines 106-171) for a determined
project root: reuse a live entry (stamping `last_used`), drop a dead one
and recreate, else create. -/
def pool_get_client (s : PoolState) (projectRoot : String) : PoolState × Nat :=
  match alGet s.instances projectRoot with
  | some inst =>
      if inst.isRunning then
        ({ s with instances := alSet s.instances projectRoot { inst with lastUsed := s.clock },
                  clock := s.clock + 1 },
         inst.clientId)
      else
        pool_create_instance { s with instances := alErase s.instances projectRoot } projectRoot
  | none => pool_create_instance s projectRoot

/-- Pool events: a `get` for a project root, or that project's subprocess
dying (observed through `client.is_running`). -/
inductive PoolEvent where
  | get (projectRoot : String)
  | markDead (projectRoot : String)
  deriving Repr, DecidableEq

/-- Step over one pool event. -/
def poolStep (s : PoolState) : PoolEvent → PoolState
  | .get root => (pool_get_client s root).1
  | .markDead root =>
      match alGet s.instances root with
      | some inst =>
          { s with instances := alSet s.instances root { inst with isRunning := false } }
      | none => s

/-- A fresh pool with the given capacity (`ALSPool.__init__`, lines
82-94). -/
def poolInit (maxInstances : Nat) : PoolState :=
  { maxInstances := maxInstances, instances := [], nextClientId := 0,
    clock := 0, shutdownIds := [] }

/-- Run a pool event sequence from a fresh pool. -/
def poolRun (maxInstances : Nat) (evs : List PoolEvent) : PoolState :=
  evs.foldl poolStep (poolInit maxInstances)

/-- The text extracted from one well-formed hover `MarkedString` item, for
stating the flattening law. -/
def markedText (v : JVal) : String :=
  match v with
  | .str t => t
  | .obj fields =>
      match alGet fields "value" with
      | some (.str t) => t
      | _ => ""
  | _ => ""

/-- Well-formedness of one hover `MarkedString` item as the claim lists
them: a string, or an object whose `value` member is a string. -/
def wellFormedMarked (v : JVal) : Bool :=
  match v with
  | .str _ => true
  | .obj fields =>
      match alGet fields "value" with
      | some (.str _) => true
      | _ => false
  | _ => false


/-- A concrete detector filesystem for the witness: every proper ancestor
of the input is a directory, the file itself is not, and only `/proj`
carries a project marker. -/
def fs0 : DetectFS where
  isDir := fun q => q ≠ ["main.adb", "src", "proj"]
  hasProjectMarker := fun d => d == ["proj"]

/-! # Theorems -/

/-! ## Claim C9 — diagnostics store is last-write-wins -/

theorem lastNotifFor_cons (uri u : String) (D : List Diagnostic)
    (rest : List (String × List Diagnostic)) :
    lastNotifFor uri ((u, D) :: rest)
      = match lastNotifFor uri rest with
        | some D' => some D'
        | none => if u = uri then some D else none := by
  unfold lastNotifFor
  rw [List.filter_cons]
  by_cases h : u = uri
  · subst h
    rw [if_pos (by simp : ((u, D).1 == u) = true)]
    cases hf : rest.filter (fun p => p.1 == u) with
    | nil => simp [hf]
    | cons x xs =>
        rw [List.getLast?_cons_cons]
        rcases hy : (x :: xs).getLast? with _ | y
        · exact absurd (List.getLast?_eq_none_iff.mp hy) (List.cons_ne_nil x xs)
        · simp
  · rw [if_neg (by simp [h] : ¬ ((u, D).1 == uri) = true)]
    cases hf : rest.filter (fun p => p.1 == uri) with
    | nil => simp [hf, h]
    | cons x xs =>
        rcases hy : (x :: xs).getLast? with _ | y
        · exact absurd (List.getLast?_eq_none_iff.mp hy) (List.cons_ne_nil x xs)
        · simp

theorem runNotifs_get (notifs : List (String × List Diagnostic)) (st : DiagStore)
    (uri : String) :
    alGet (notifs.foldl (fun s p => handle_diagnostics_notif s p.1 p.2) st) uri
      = match lastNotifFor uri notifs with
        | some D => some D
        | none => alGet st uri := by
  induction notifs generalizing st with
  | nil => simp [lastNotifFor]
  | cons hd tl ih =>
      rw [List.foldl_cons, ih, lastNotifFor_cons uri hd.1 hd.2 tl]
      cases hlast : lastNotifFor uri tl with
      | some D' => simp
      | none =>
          by_cases h : hd.1 = uri
          · subst h
            simp [handle_diagnostics_notif, alGet_alSet_same]
          · simp [handle_diagnostics_notif, alGet_alSet_other _ _ _ _ h, h]

/-- Claim C9: for every sequence of publishDiagnostics notifications, reading
the diagnostics store for a URI returns exactly the diagnostics list of the
last notification received for that URI; all earlier entries for the same URI
are discarded. -/
theorem diagnostics_store_last_write_wins (notifs : List (String × List Diagnostic))
    (uri : String) (D : List Diagnostic)
    (hlast : lastNotifFor uri notifs = some D) :
    get_diagnostics (runDiagnosticsNotifs notifs) (some uri) none = [(uri, D)] := by
  have hg := runNotifs_get notifs [] uri
  rw [hlast] at hg
  simp [get_diagnostics, runDiagnosticsNotifs, hg]

/-- Witness for C9 at a concrete three-notification run. -/
theorem diagnostics_store_last_write_wins_witness :
    get_diagnostics (runDiagnosticsNotifs
        [("file:///p/m.adb", [⟨⟨⟨9, 4⟩, ⟨9, 10⟩⟩, "old message", .ERROR, none, none⟩]),
         ("file:///p/other.adb", [⟨⟨⟨1, 0⟩, ⟨1, 2⟩⟩, "other", .WARNING, none, none⟩]),
         ("file:///p/m.adb", [⟨⟨⟨2, 1⟩, ⟨2, 3⟩⟩, "new message", .HINT, none, none⟩])])
      (some "file:///p/m.adb") none
      = [("file:///p/m.adb", [⟨⟨⟨2, 1⟩, ⟨2, 3⟩⟩, "new message", .HINT, none, none⟩])] :=
  diagnostics_store_last_write_wins _ _ _ (by decide)

/-- Claim C5 (amended): the known severity strings select exactly the sets the
claim lists, but an unknown severity string yields no filter at all — the tool
then behaves exactly like "all" and returns every diagnostic (still not an
error response) rather than none. -/
theorem severity_filter_semantics (s : String) (store : DiagStore) (file : Option String)
    (hall : s ≠ "all")
    (hunk : strLower s ∉ (["error", "warning", "hint", "info"] : List String)) :
    get_severity_filter "error" = some [.ERROR] ∧
    get_severity_filter "warning" = some [.WARNING] ∧
    get_severity_filter "hint" = some [.HINT, .INFORMATION] ∧
    get_severity_filter "info" = some [.INFORMATION] ∧
    get_severity_filter "all" = none ∧
    get_severity_filter s = none ∧
    handle_diagnostics store file s = handle_diagnostics store file "all" := by
  simp only [List.mem_cons, List.not_mem_nil, or_false, not_or] at hunk
  obtain ⟨h1, h2, h3, h4⟩ := hunk
  have hfilt : get_severity_filter s = none := by
    unfold get_severity_filter
    rw [if_neg hall, if_neg h1, if_neg h2, if_neg h3, if_neg h4]
  refine ⟨by decide, by decide, by decide, by decide, by decide, hfilt, ?_⟩
  unfold handle_diagnostics
  rw [hfilt, show get_severity_filter "all" = none from by decide]

/-- Witness for C5 at severity "bogus". -/
theorem severity_filter_semantics_witness :
    get_severity_filter "bogus" = none ∧
    handle_diagnostics [] none "bogus" = handle_diagnostics [] none "all" := by
  have h := severity_filter_semantics "bogus" [] none (by decide) (by decide)
  exact ⟨h.2.2.2.2.2.1, h.2.2.2.2.2.2⟩

/-- Counterexample for C5 as stated: with one ERROR diagnostic in the store,
the unknown severity string "bogus" returns that diagnostic (totalCount 1)
instead of no diagnostics. -/
theorem severity_filter_unknown_counterexample :
    handle_diagnostics
        [("file:///p/m.adb", [⟨⟨⟨9, 4⟩, ⟨9, 10⟩⟩, "type mismatch", .ERROR, none, none⟩])]
        none "bogus"
      = .ok (.obj [("diagnostics", .arr
                     [.obj [("file", .str "/p/m.adb"),
                            ("line", .num 10),
                            ("column", .num 5),
                            ("endLine", .num 10),
                            ("endColumn", .num 11),
                            ("severity", .str "error"),
                            ("message", .str "type mismatch"),
                            ("code", .null),
                            ("source", .str "ada")]]),
                  ("errorCount", .num 1),
                  ("warningCount", .num 0),
                  ("hintCount", .num 0),
                  ("totalCount", .num 1)]) := rfl

/-! ## Claim C6 — rename identifier validation -/

theorem listStartsWith_iff (a b : List Char) :
    listStartsWith a b = true ↔ b <+: a := by
  induction b generalizing a with
  | nil => simp [listStartsWith]
  | cons x xs ih =>
      cases a with
      | nil => simp [listStartsWith]
      | cons y ys =>
          rw [List.cons_prefix_cons]
          simp only [listStartsWith, Bool.and_eq_true, beq_iff_eq, ih]
          exact and_congr_left (fun _ => eq_comm)

theorem containsSub_iff (hay needle : List Char) :
    containsSub hay needle = true ↔ needle <:+: hay := by
  induction hay with
  | nil => simp [containsSub, List.isEmpty_iff]
  | cons a rest ih =>
      simp [containsSub, listStartsWith_iff, ih, List.infix_cons_iff]

theorem is_valid_eq (name : String) :
    is_valid_ada_identifier name
      = (adaPatternMatch name && !hasDoubleUnderscore name && !endsWithUnderscore name) := by
  unfold is_valid_ada_identifier
  by_cases hemp : name.isEmpty
  · have hd : name.data = [] := by
      rw [(String.isEmpty_iff name).mp hemp]
    have hm : adaPatternMatch name = false := by
      simp [adaPatternMatch, adaPatternCore, hd]
    simp [hemp, hm]
  · rw [if_neg hemp]
    cases hm : adaPatternMatch name <;>
      cases hdbl : hasDoubleUnderscore name <;>
      cases hend : endsWithUnderscore name <;> simp

theorem is_valid_ada_identifier_iff (name : String) :
    is_valid_ada_identifier name = true ↔
      ((adaPatternCore name.data = true ∨
        (name.data.getLast? = some '\n' ∧ adaPatternCore name.data.dropLast = true)) ∧
       ¬ (['_', '_'] <:+: name.data) ∧
       name.data.getLast? ≠ some '_') := by
  rw [is_valid_eq]
  simp only [Bool.and_eq_true, Bool.not_eq_true', adaPatternMatch, hasDoubleUnderscore,
    endsWithUnderscore, Bool.or_eq_true, beq_iff_eq]
  constructor
  · rintro ⟨⟨hm, hdbl⟩, hend⟩
    refine ⟨hm, fun hin => ?_, fun heq => ?_⟩
    · rw [(containsSub_iff _ _).mpr hin] at hdbl
      exact Bool.noConfusion hdbl
    · rw [heq, beq_self_eq_true] at hend
      exact Bool.noConfusion hend
  · rintro ⟨hm, hdbl, hend⟩
    refine ⟨⟨hm, ?_⟩, ?_⟩
    · exact Bool.eq_false_iff.mpr fun h => hdbl ((containsSub_iff _ _).mp h)
    · exact Bool.eq_false_iff.mpr fun h => hend (beq_iff_eq.mp h)

/-- Claim C6 (amended): the rename tool accepts `new_name` iff it passes the
Python `re` match of `^[A-Za-z][A-Za-z0-9_]*$` — where the anchor `$` also
matches just before one trailing newline — and contains no two consecutive
underscores and does not end with an underscore; every rejected name yields
`success:false` with error `Invalid Ada identifier: '<name>'` and no LSP
request is issued. -/
theorem rename_identifier_validation (name : String)
    (prepareResp renameResp : Except LSPErr JVal) (preview : Bool) :
    (is_valid_ada_identifier name = true ↔
      ((adaPatternCore name.data = true ∨
        (name.data.getLast? = some '\n' ∧ adaPatternCore name.data.dropLast = true)) ∧
       ¬ (['_', '_'] <:+: name.data) ∧
       name.data.getLast? ≠ some '_')) ∧
    (is_valid_ada_identifier name = false →
      handle_rename_symbol prepareResp renameResp name preview
        = ([], .ok (invalid_identifier_payload name))) := by
  refine ⟨is_valid_ada_identifier_iff name, fun hinv => ?_⟩
  unfold handle_rename_symbol
  rw [hinv]
  rfl

/-- Witness for C6 at the claim's own example "X__Y": rejected with the
structured payload and no LSP request issued. -/
theorem rename_identifier_validation_witness :
    handle_rename_symbol (.ok .null) (.ok .null) "X__Y" true
      = ([], .ok (invalid_identifier_payload "X__Y")) :=
  (rename_identifier_validation "X__Y" (.ok .null) (.ok .null) true).2 (by decide)

/-- Counterexample for C6 as stated: `"X_\n"` does not match
`^[A-Za-z][A-Za-z0-9_]*$` read as a whole-string match, yet the code accepts
it — Python's `$` matches before the trailing newline and `endswith("_")`
sees the newline — and both LSP rename requests are then issued. -/
theorem rename_identifier_newline_counterexample :
    adaPatternCore "X_\n".data = false ∧
    is_valid_ada_identifier "X_\n" = true ∧
    (handle_rename_symbol (.ok (.obj [("placeholder", .str "Old_Name")]))
        (.ok (.obj [("changes", .obj [])])) "X_\n" true).1
      = ["textDocument/prepareRename", "textDocument/rename"] :=
  ⟨rfl, rfl, rfl⟩

/-! ## Claim C3 — LS errors at the tool boundary -/

/-- Claim C3 (amended): the navigation translators (goto-definition, hover,
find-references) catch `LSPError` and return structured error payloads, but
`handle_completions` has no such handler — the `LSPError` escapes the
translator — and it is the dispatcher's `call_tool` exception net that turns
it into a structured `{error, context}` payload, so no exception crosses the
server's tool boundary. -/
theorem translator_ls_error_payloads (e : LSPErr) (fs : FileSys) (limit : Nat)
    (ctx : JVal) :
    handle_goto_definition fs (.error e)
      = .ok (.obj [("found", .bool false), ("error", .str e.message)]) ∧
    handle_hover (.error e)
      = .ok (.obj [("found", .bool false), ("error", .str e.message)]) ∧
    handle_find_references fs (.error e)
      = .ok (.obj [("references", .arr []), ("count", .num 0), ("error", .str e.message)]) ∧
    handle_completions (.error e) limit = .error (.lsp e) ∧
    call_tool_wrap ctx (handle_completions (.error e) limit)
      = .obj [("error", .str (lspErrorStr e)), ("context", ctx)] :=
  ⟨rfl, rfl, rfl, rfl, rfl⟩

/-- Counterexample for C3 as stated: the completions translator, given an LS
error response, lets the `LSPError` exception propagate out of the translator
instead of returning a structured payload. -/
theorem completions_error_counterexample :
    handle_completions (.error ⟨-32803, "content modified"⟩) 50
      = .error (.lsp ⟨-32803, "content modified"⟩) := rfl

/-! ## Claim C10 — hover content flattening -/

theorem collectStrParts_map (l : List String) :
    collectStrParts (l.map JVal.str) = some l := by
  induction l with
  | nil => rfl
  | cons x xs ih => simp [collectStrParts, ih]

theorem joinParts_strs (l : List String) :
    joinParts (l.map JVal.str) = .ok (String.intercalate "\n" l) := by
  unfold joinParts
  rw [collectStrParts_map]

theorem filterMap_marked (items : List JVal) (h : items.all wellFormedMarked = true) :
    items.filterMap markedPart = (items.map markedText).map JVal.str := by
  induction items with
  | nil => rfl
  | cons x xs ih =>
      rw [List.all_cons, Bool.and_eq_true] at h
      have hx : markedPart x = some (.str (markedText x)) := by
        cases x with
        | str t => rfl
        | obj fields =>
            have hwx : wellFormedMarked (JVal.obj fields) = true := h.1
            rcases hv : alGet fields "value" with _ | v
            · simp [wellFormedMarked, hv] at hwx
            · cases v with
              | str t => simp [markedPart, markedText, jget, JVal.get?, hv]
              | num n => simp [wellFormedMarked, hv] at hwx
              | bool b => simp [wellFormedMarked, hv] at hwx
              | null => simp [wellFormedMarked, hv] at hwx
              | arr its => simp [wellFormedMarked, hv] at hwx
              | obj flds => simp [wellFormedMarked, hv] at hwx
        | num n => exact absurd h.1 (by simp [wellFormedMarked])
        | bool b => exact absurd h.1 (by simp [wellFormedMarked])
        | null => exact absurd h.1 (by simp [wellFormedMarked])
        | arr its => exact absurd h.1 (by simp [wellFormedMarked])
      simp [List.filterMap_cons, hx, ih h.2]

/-- Claim C10: the hover tool flattens contents of shape string, `{value}`,
or a list of string / `{value}` items into plain text joined by newlines; in
particular the claim's concrete example yields
`{found: true, contents: "X : Integer\nA variable"}`. -/
theorem hover_flattening (s : String) (items : List JVal)
    (hwf : items.all wellFormedMarked = true) :
    handle_hover (.ok (.obj [("contents", .str s)]))
      = .ok (.obj [("found", .bool true), ("contents", .str s)]) ∧
    handle_hover (.ok (.obj [("contents", .obj [("value", .str s)])]))
      = .ok (.obj [("found", .bool true), ("contents", .str s)]) ∧
    handle_hover (.ok (.obj [("contents", .arr items)]))
      = .ok (.obj [("found", .bool true),
                   ("contents", .str (String.intercalate "\n" (items.map markedText)))]) ∧
    handle_hover (.ok (.obj [("contents",
        .arr [.obj [("language", .str "ada"), ("value", .str "X : Integer")],
              .str "A variable"])]))
      = .ok (.obj [("found", .bool true), ("contents", .str "X : Integer\nA variable")]) := by
  refine ⟨rfl, rfl, ?_, rfl⟩
  have h1 : handle_hover (.ok (.obj [("contents", .arr items)]))
      = ((joinParts (items.filterMap markedPart)).map JVal.str) >>= fun text =>
          Except.ok (.obj [("found", .bool true), ("contents", text)]) := rfl
  rw [h1, filterMap_marked items hwf, joinParts_strs]
  rfl

/-- Witness for C10 at the claim's concrete hover contents. -/
theorem hover_flattening_witness :
    handle_hover (.ok (.obj [("contents",
        .arr [.obj [("language", .str "ada"), ("value", .str "X : Integer")],
              .str "A variable"])]))
      = .ok (.obj [("found", .bool true), ("contents", .str "X : Integer\nA variable")]) :=
  (hover_flattening "X : Integer"
      [.obj [("language", .str "ada"), ("value", .str "X : Integer")], .str "A variable"]
      (by decide)).2.2.2

/-! ## Claim C4 — the open-files cache -/

theorem nav_invariant_step (s : NavState) (ev : NavEvent) (hev : ev ≠ .clearCache)
    (hs : ∀ uri : String,
        (uri ∈ s.openFiles ↔ ∃ g, (g, uri) ∈ s.didOpenLog) ∧
        (s.didOpenLog.filter (fun q => q.2 == uri)).length ≤ 1) :
    ∀ uri : String,
        (uri ∈ (navStep s ev).openFiles ↔ ∃ g, (g, uri) ∈ (navStep s ev).didOpenLog) ∧
        ((navStep s ev).didOpenLog.filter (fun q => q.2 == uri)).length ≤ 1 := by
  cases ev with
  | clearCache => exact absurd rfl hev
  | restartClient => exact fun uri => hs uri
  | ensureOpen f ex ok =>
      intro uri
      show (uri ∈ (ensure_file_open s f ex ok).openFiles ↔
          ∃ g, (g, uri) ∈ (ensure_file_open s f ex ok).didOpenLog) ∧
        ((ensure_file_open s f ex ok).didOpenLog.filter (fun q => q.2 == uri)).length ≤ 1
      unfold ensure_file_open
      by_cases hc : s.openFiles.contains (file_to_uri f)
      · simp only [hc, if_true]
        exact hs uri
      · simp only [hc, Bool.false_eq_true, if_false]
        by_cases hex : ex
        · by_cases hok : ok
          · simp only [hex, hok, Bool.not_true, Bool.false_eq_true, if_false, if_true]
            constructor
            · constructor
              · intro h
                rcases List.mem_append.mp h with h | h
                · obtain ⟨g, hg⟩ := (hs uri).1.mp h
                  exact ⟨g, List.mem_append_left _ hg⟩
                · refine ⟨s.clientGen, List.mem_append_right _ ?_⟩
                  rw [List.mem_singleton.mp h]
                  exact List.mem_singleton.mpr rfl
              · rintro ⟨g, hg⟩
                rcases List.mem_append.mp hg with hg | hg
                · exact List.mem_append_left _ ((hs uri).1.mpr ⟨g, hg⟩)
                · have : uri = file_to_uri f := congrArg Prod.snd (List.mem_singleton.mp hg)
                  exact List.mem_append_right _ (this ▸ List.mem_singleton.mpr rfl)
            · rw [List.filter_append]
              by_cases huri : uri = file_to_uri f
              · have hnolog : s.didOpenLog.filter (fun q => q.2 == uri) = [] := by
                  rw [List.filter_eq_nil_iff]
                  intro q hq hq2
                  have hq2' : q.2 = uri := by simpa using hq2
                  have hmem : uri ∈ s.openFiles :=
                    (hs uri).1.mpr ⟨q.1, by rw [← hq2']; exact hq⟩
                  exact hc (List.elem_iff.mpr (huri ▸ hmem))
                rw [hnolog]
                simp [huri]
              · have : List.filter (fun q => q.2 == uri) [(s.clientGen, file_to_uri f)] = [] := by
                  simp [Ne.symm huri]
                rw [this, List.append_nil]
                exact (hs uri).2
          · simp only [hex, hok, Bool.not_true, Bool.false_eq_true, if_false]
            exact hs uri
        · simp only [hex, Bool.not_false, if_true]
          exact hs uri

theorem nav_invariant_run (evs : List NavEvent) (s : NavState)
    (hnoclear : NavEvent.clearCache ∉ evs)
    (hs : ∀ uri : String,
        (uri ∈ s.openFiles ↔ ∃ g, (g, uri) ∈ s.didOpenLog) ∧
        (s.didOpenLog.filter (fun q => q.2 == uri)).length ≤ 1) :
    ∀ uri : String,
        (uri ∈ (evs.foldl navStep s).openFiles ↔
          ∃ g, (g, uri) ∈ (evs.foldl navStep s).didOpenLog) ∧
        ((evs.foldl navStep s).didOpenLog.filter (fun q => q.2 == uri)).length ≤ 1 := by
  induction evs generalizing s with
  | nil => exact hs
  | cons ev rest ih =>
      rw [List.foldl_cons]
      exact ih (navStep s ev)
        (fun hmem => hnoclear (List.mem_cons_of_mem _ hmem))
        (nav_invariant_step s ev
          (fun hev => hnoclear (hev ▸ List.mem_cons_self _ _)) hs)

/-- Claim C4 (amended): the file-registration cache `_open_files` is a single
module-level set shared by every client and no code clears it on restart; as
long as `clear_open_files_cache` is not called, a URI is in the set iff a
`didOpen` has been sent for it on some client since process start, and at
most one `didOpen` is ever issued per URI across all client lifetimes — not
one per client lifetime. -/
theorem open_files_cache_global (evs : List NavEvent) (uri : String)
    (hnoclear : NavEvent.clearCache ∉ evs) :
    (uri ∈ (navRun evs).openFiles ↔ ∃ g, (g, uri) ∈ (navRun evs).didOpenLog) ∧
    ((navRun evs).didOpenLog.filter (fun q => q.2 == uri)).length ≤ 1 := by
  unfold navRun
  exact nav_invariant_run evs _ hnoclear (fun u => by simp) uri

/-- Witness for C4 over a concrete open / restart / re-open run. -/
theorem open_files_cache_global_witness :
    ("file:///p/a.adb" ∈ (navRun [.ensureOpen "/p/a.adb" true true, .restartClient,
        .ensureOpen "/p/a.adb" true true]).openFiles ↔
      ∃ g, (g, "file:///p/a.adb") ∈ (navRun [.ensureOpen "/p/a.adb" true true,
        .restartClient, .ensureOpen "/p/a.adb" true true]).didOpenLog) ∧
    ((navRun [.ensureOpen "/p/a.adb" true true, .restartClient,
        .ensureOpen "/p/a.adb" true true]).didOpenLog.filter
          (fun q => q.2 == "file:///p/a.adb")).length ≤ 1 :=
  open_files_cache_global
    [.ensureOpen "/p/a.adb" true true, .restartClient, .ensureOpen "/p/a.adb" true true]
    "file:///p/a.adb" (by decide)

/-- Counterexample for C4 as stated: after a restart (generation 1) the URI
is still in the cache although every `didOpen` in the log was sent on the old
client (generation 0), and the repeated positional call on the new client
sends none — the cache is not per-client and is not cleared on restart. -/
theorem open_files_cache_counterexample :
    navRun [.ensureOpen "/p/a.adb" true true, .restartClient,
        .ensureOpen "/p/a.adb" true true]
      = { openFiles := ["file:///p/a.adb"], clientGen := 1,
          didOpenLog := [(0, "file:///p/a.adb")] } := rfl

/-! ## Claim C2 — pending waiters, subprocess exit, shutdown -/

theorem alGet_bound_none {α : Type} (l : List (Nat × α)) (n : Nat)
    (h : ∀ q ∈ l, q.1 ≤ n) : alGet l (n + 1) = none := by
  induction l with
  | nil => rfl
  | cons hd tl ih =>
      have h1 := h hd (List.mem_cons_self _ _)
      have hne : hd.1 ≠ n + 1 := by omega
      simp only [alGet, hne, if_false]
      exact ih fun q hq => h q (List.mem_cons_of_mem _ hq)

theorem alGet_append_self {κ α : Type} [DecidableEq κ] (l : List (κ × α)) (k : κ) (v : α)
    (h : alGet l k = none) : alGet (l ++ [(k, v)]) k = some v := by
  induction l with
  | nil => simp [alGet]
  | cons hd tl ih =>
      by_cases hh : hd.1 = k
      · simp [alGet, hh] at h
      · simp [alGet, hh] at h ⊢
        exact ih h

/-- Claim C2 (amended): a pending waiter is removed together with a typed
`LSPError` on timeout; an LS error response removes the entry and fails the
waiter with the typed error; the subprocess exiting, by itself, removes and
resolves nothing — an outstanding call fails only when its own timeout
fires; and `shutdown()` best-effort sends its own shutdown request (skipped
when the process is already gone), cancels the reader, and leaves every
pre-existing pending waiter in the table unresolved — no connection-lost
error is delivered to them. -/
theorem pending_waiter_lifecycle (s : ClientState) (id : Nat) (m method : String)
    (e : LSPErr) (r : JVal) (internalResp : Option (Option LSPErr))
    (hpend : alGet s.pending id = some m)
    (hbound : ∀ q ∈ s.pending, q.1 ≤ s.requestId) :
    (s.processRunning = true →
      send_request_start s method
        = .ok ({ s with requestId := s.requestId + 1,
                        pending := s.pending ++ [(s.requestId + 1, method)] },
               s.requestId + 1)) ∧
    ((request_timeout s id m).1.pending = alErase s.pending id ∧
     (request_timeout s id m).2 = ⟨-1, "Request " ++ m ++ " timed out"⟩) ∧
    ((handle_response s id (some e) r).1.pending = alErase s.pending id ∧
     (handle_response s id (some e) r).1.failedWaiters = s.failedWaiters ++ [(id, e)] ∧
     (handle_response s id (some e) r).2 = some (.error e)) ∧
    ((process_exit s).pending = s.pending ∧
     (process_exit s).failedWaiters = s.failedWaiters) ∧
    ((client_shutdown s internalResp).readerCancelled = true ∧
     (client_shutdown s internalResp).pending = s.pending ∧
     (∀ q ∈ (client_shutdown s internalResp).failedWaiters,
        q ∈ s.failedWaiters ∨ s.requestId < q.1)) := by
  have hnone : alGet s.pending (s.requestId + 1) = none := alGet_bound_none _ _ hbound
  refine ⟨?_, ⟨rfl, rfl⟩, ?_, ⟨rfl, rfl⟩, ?_⟩
  · intro hrun
    simp [send_request_start, hrun]
  · refine ⟨?_, ?_, ?_⟩ <;> simp [handle_response, hpend]
  · unfold client_shutdown
    cases hrun : s.processRunning with
    | false =>
        rw [if_neg (by simp : ¬((false : Bool) = true))]
        exact ⟨rfl, rfl, fun q hq => Or.inl hq⟩
    | true =>
        have hsend : send_request_start s "shutdown"
            = .ok ({ s with requestId := s.requestId + 1,
                            pending := s.pending ++ [(s.requestId + 1, "shutdown")] },
                   s.requestId + 1) := by
          simp [send_request_start, hrun]
        rw [if_pos (rfl : (true : Bool) = true), hsend]
        cases internalResp with
        | none =>
            refine ⟨rfl, ?_, ?_⟩
            · simp [request_timeout, alErase_append_notMem _ _ _ hnone]
            · intro q hq
              exact Or.inl hq
        | some err =>
            have hget := alGet_append_self s.pending (s.requestId + 1) "shutdown" hnone
            cases err with
            | none =>
                refine ⟨rfl, ?_, ?_⟩
                · simp [handle_response, hget, alErase_append_notMem _ _ _ hnone]
                · intro q hq
                  simp only [handle_response, hget] at hq
                  exact Or.inl hq
            | some e' =>
                refine ⟨rfl, ?_, ?_⟩
                · simp [handle_response, hget, alErase_append_notMem _ _ _ hnone]
                · intro q hq
                  simp only [handle_response, hget] at hq
                  rcases List.mem_append.mp hq with hq | hq
                  · exact Or.inl hq
                  · right
                    rw [List.mem_singleton.mp hq]
                    omega

/-- Witness for C2 at a client with one pending hover request. -/
theorem pending_waiter_lifecycle_witness :
    (client_shutdown
        { requestId := 1, pending := [(1, "textDocument/hover")],
          failedWaiters := [], processRunning := false, readerCancelled := false }
        none).pending
      = [(1, "textDocument/hover")] := by
  have h := pending_waiter_lifecycle
      { requestId := 1, pending := [(1, "textDocument/hover")], failedWaiters := [],
        processRunning := false, readerCancelled := false }
      1 "textDocument/hover" "textDocument/definition" ⟨-1, "x"⟩ .null none
      (by rfl) (by decide)
  exact h.2.2.2.2.2.1

/-- Counterexample for C2 as stated: a request is sent (id 1 pending), the
subprocess exits mid-request, and `shutdown()` runs — the reader is
cancelled but the waiter is still in the pending table and no waiter was
ever failed, so neither the exit nor `shutdown()` resolved it with any
(connection-lost) error. -/
theorem shutdown_pending_counterexample :
    send_request_start initClientState "textDocument/hover"
      = .ok ({ requestId := 1, pending := [(1, "textDocument/hover")],
               failedWaiters := [], processRunning := true, readerCancelled := false }, 1) ∧
    client_shutdown
        (process_exit
          { requestId := 1, pending := [(1, "textDocument/hover")],
            failedWaiters := [], processRunning := true, readerCancelled := false })
        none
      = { requestId := 1, pending := [(1, "textDocument/hover")],
          failedWaiters := [], processRunning := false, readerCancelled := true } :=
  ⟨rfl, rfl⟩

/-! ## Claim C8 — pool capacity bound and LRU eviction -/

theorem alGet_eq_none_iff {κ α : Type} [DecidableEq κ] (l : List (κ × α)) (k : κ) :
    alGet l k = none ↔ k ∉ alKeys l := by
  induction l with
  | nil => simp [alGet, alKeys]
  | cons hd tl ih =>
      by_cases hh : hd.1 = k
      · simp [alGet, hh, alKeys]
      · simp only [alGet, hh, if_false, alKeys, List.map_cons, List.mem_cons, not_or, ih]
        constructor
        · exact fun h => ⟨fun heq => hh heq.symm, h⟩
        · exact fun h => h.2

theorem alGet_isSome_iff {κ α : Type} [DecidableEq κ] (l : List (κ × α)) (k : κ) :
    (alGet l k).isSome = true ↔ k ∈ alKeys l := by
  induction l with
  | nil => simp [alGet, alKeys]
  | cons hd tl ih =>
      by_cases hh : hd.1 = k
      · simp [alGet, hh, alKeys]
      · simp only [alGet, hh, if_false, alKeys, List.map_cons, List.mem_cons, ih]
        constructor
        · exact fun h => Or.inr h
        · rintro (h | h)
          · exact absurd h.symm hh
          · exact h

theorem alKeys_alSet_isSome {κ α : Type} [DecidableEq κ] (l : List (κ × α)) (k : κ) (v : α)
    (h : (alGet l k).isSome = true) : alKeys (alSet l k v) = alKeys l := by
  induction l with
  | nil => simp [alGet] at h
  | cons hd tl ih =>
      by_cases hh : hd.1 = k
      · simp [alSet, alKeys, hh]
      · simp only [alGet, hh, if_false] at h
        simp only [alSet, hh, if_false, alKeys, List.map_cons]
        rw [show List.map Prod.fst (alSet tl k v) = List.map Prod.fst tl from ih h]

theorem alKeys_alSet_none {κ α : Type} [DecidableEq κ] (l : List (κ × α)) (k : κ) (v : α)
    (h : alGet l k = none) : alKeys (alSet l k v) = alKeys l ++ [k] := by
  induction l with
  | nil => simp [alSet, alKeys]
  | cons hd tl ih =>
      by_cases hh : hd.1 = k
      · simp [alGet, hh] at h
      · simp only [alGet, hh, if_false] at h
        simp only [alSet, hh, if_false, alKeys, List.map_cons, List.cons_append,
          List.cons.injEq, true_and]
        rw [show List.map Prod.fst (alSet tl k v) = List.map Prod.fst tl ++ [k] from ih h]

theorem alKeys_alErase_sublist {κ α : Type} [DecidableEq κ] (l : List (κ × α)) (k : κ) :
    List.Sublist (alKeys (alErase l k)) (alKeys l) := by
  induction l with
  | nil => simp [alErase, alKeys]
  | cons hd tl ih =>
      by_cases hh : hd.1 = k
      · simp only [alErase, hh, if_true, alKeys, List.map_cons]
        exact List.Sublist.cons _ (List.Sublist.refl _)
      · simp only [alErase, hh, if_false, alKeys, List.map_cons]
        exact List.Sublist.cons₂ _ ih

theorem alGet_alErase_self_of_nodup {κ α : Type} [DecidableEq κ] (l : List (κ × α)) (k : κ)
    (h : (alKeys l).Nodup) : alGet (alErase l k) k = none := by
  induction l with
  | nil => rfl
  | cons hd tl ih =>
      rw [alKeys, List.map_cons, List.nodup_cons] at h
      by_cases hh : hd.1 = k
      · simp only [alErase, hh, if_true]
        rw [alGet_eq_none_iff]
        exact hh ▸ h.1
      · simp only [alErase, hh, if_false, alGet, if_false]
        exact ih h.2

theorem oldestStep_isSome (acc : Option (String × Nat)) (p : String × PoolInstance) :
    (oldestStep acc p).isSome = true := by
  cases acc with
  | none => rfl
  | some rt =>
      show (if p.2.lastUsed < rt.2 then some (p.1, p.2.lastUsed) else some rt).isSome = true
      split <;> rfl

theorem oldestFold_isSome (l : List (String × PoolInstance)) (acc : Option (String × Nat))
    (h : acc.isSome = true) : (l.foldl oldestStep acc).isSome = true := by
  induction l generalizing acc with
  | nil => exact h
  | cons hd tl ih => exact ih _ (oldestStep_isSome acc hd)

theorem oldestFold_mem (l : List (String × PoolInstance)) (acc : Option (String × Nat)) :
    l.foldl oldestStep acc = acc ∨
      ∃ p ∈ l, l.foldl oldestStep acc = some (p.1, p.2.lastUsed) := by
  induction l generalizing acc with
  | nil => exact Or.inl rfl
  | cons hd tl ih =>
      rw [List.foldl_cons]
      rcases ih (oldestStep acc hd) with heq | ⟨p, hp, hres⟩
      · rw [heq]
        cases acc with
        | none => exact Or.inr ⟨hd, List.mem_cons_self _ _, rfl⟩
        | some rt =>
            simp only [oldestStep]
            split
            · exact Or.inr ⟨hd, List.mem_cons_self _ _, rfl⟩
            · exact Or.inl rfl
      · exact Or.inr ⟨p, List.mem_cons_of_mem _ hp, hres⟩

theorem oldestRoot_mem (l : List (String × PoolInstance)) (hne : l ≠ []) :
    ∃ r, oldestRoot l = some r ∧ r ∈ alKeys l := by
  rcases oldestFold_mem l none with heq | ⟨p, hp, hres⟩
  · obtain ⟨x, tl, rfl⟩ := List.exists_cons_of_ne_nil hne
    have hs : (List.foldl oldestStep none (x :: tl)).isSome = true := by
      rw [List.foldl_cons]
      exact oldestFold_isSome tl _ (oldestStep_isSome none x)
    rw [heq] at hs
    exact absurd hs (by simp)
  · exact ⟨p.1, by simp [oldestRoot, hres], List.mem_map_of_mem Prod.fst hp⟩

theorem evict_if_needed_inv (s : PoolState)
    (hle : s.instances.length ≤ s.maxInstances)
    (hnodup : (alKeys s.instances).Nodup)
    (hmax : 1 ≤ s.maxInstances) :
    (evict_if_needed s).maxInstances = s.maxInstances ∧
    (evict_if_needed s).instances.length < s.maxInstances ∧
    (alKeys (evict_if_needed s).instances).Nodup ∧
    (∀ k, alGet s.instances k = none → alGet (evict_if_needed s).instances k = none) := by
  unfold evict_if_needed
  by_cases h : s.instances.length < s.maxInstances
  · rw [if_pos h]
    exact ⟨rfl, h, hnodup, fun k hk => hk⟩
  · rw [if_neg h]
    have heq : s.instances.length = s.maxInstances := le_antisymm hle (not_lt.mp h)
    have hne : s.instances ≠ [] := by
      intro h0
      rw [h0] at heq
      simp at heq
      omega
    obtain ⟨r, hr, hrmem⟩ := oldestRoot_mem s.instances hne
    rw [hr]
    have hrsome : (alGet s.instances r).isSome = true := (alGet_isSome_iff _ _).mpr hrmem
    show (shutdown_instance s r).maxInstances = s.maxInstances ∧ _
    unfold shutdown_instance
    cases hg : alGet s.instances r with
    | none =>
        rw [hg] at hrsome
        simp at hrsome
    | some inst =>
        dsimp only
        rw [hg]
        dsimp only
        have hl2 := alErase_length_mem s.instances r hrsome
        refine ⟨rfl, by omega, ?_, ?_⟩
        · exact hnodup.sublist (alKeys_alErase_sublist s.instances r)
        · intro k hk
          rw [alGet_eq_none_iff] at hk ⊢
          exact fun hmem => hk ((alKeys_alErase_sublist s.instances r).mem hmem)

theorem pool_create_instance_inv (s : PoolState) (root : String)
    (hle : s.instances.length ≤ s.maxInstances)
    (hnodup : (alKeys s.instances).Nodup)
    (hmax : 1 ≤ s.maxInstances)
    (hroot : alGet s.instances root = none) :
    (pool_create_instance s root).1.maxInstances = s.maxInstances ∧
    (pool_create_instance s root).1.instances.length ≤ s.maxInstances ∧
    (alKeys (pool_create_instance s root).1.instances).Nodup := by
  obtain ⟨hm, hlen, hnd, hpres⟩ := evict_if_needed_inv s hle hnodup hmax
  have hroot' : alGet (evict_if_needed s).instances root = none := hpres root hroot
  unfold pool_create_instance
  refine ⟨hm, ?_, ?_⟩
  · dsimp only
    rw [alSet_length_notMem _ _ _ hroot']
    omega
  · dsimp only
    rw [alKeys_alSet_none _ _ _ hroot']
    rw [List.nodup_append]
    refine ⟨hnd, List.nodup_singleton _, ?_⟩
    intro a ha hb
    rw [List.mem_singleton] at hb
    subst hb
    exact (alGet_eq_none_iff _ _).mp hroot' ha

theorem pool_get_client_inv (s : PoolState) (root : String)
    (hle : s.instances.length ≤ s.maxInstances)
    (hnodup : (alKeys s.instances).Nodup)
    (hmax : 1 ≤ s.maxInstances) :
    (pool_get_client s root).1.maxInstances = s.maxInstances ∧
    (pool_get_client s root).1.instances.length ≤ s.maxInstances ∧
    (alKeys (pool_get_client s root).1.instances).Nodup := by
  unfold pool_get_client
  cases hg : alGet s.instances root with
  | none => exact pool_create_instance_inv s root hle hnodup hmax hg
  | some inst =>
      have hsome : (alGet s.instances root).isSome = true := by
        rw [hg]
        rfl
      dsimp only
      by_cases hrun : inst.isRunning
      · rw [if_pos hrun]
        refine ⟨rfl, ?_, ?_⟩
        · dsimp only
          rw [alSet_length_mem _ _ _ hsome]
          exact hle
        · dsimp only
          rw [alKeys_alSet_isSome _ _ _ hsome]
          exact hnodup
      · rw [if_neg hrun]
        have hlen' := alErase_length_mem s.instances root hsome
        have hnd' : (alKeys (alErase s.instances root)).Nodup :=
          hnodup.sublist (alKeys_alErase_sublist s.instances root)
        have hg' : alGet (alErase s.instances root) root = none :=
          alGet_alErase_self_of_nodup s.instances root hnodup
        exact pool_create_instance_inv
          { s with instances := alErase s.instances root }
          root (by dsimp only; omega) hnd' hmax hg'

theorem poolStep_inv (s : PoolState) (ev : PoolEvent)
    (hle : s.instances.length ≤ s.maxInstances)
    (hnodup : (alKeys s.instances).Nodup)
    (hmax : 1 ≤ s.maxInstances) :
    (poolStep s ev).maxInstances = s.maxInstances ∧
    (poolStep s ev).instances.length ≤ s.maxInstances ∧
    (alKeys (poolStep s ev).instances).Nodup := by
  cases ev with
  | get root => exact pool_get_client_inv s root hle hnodup hmax
  | markDead root =>
      unfold poolStep
      cases hg : alGet s.instances root with
      | none =>
          dsimp only
          rw [hg]
          exact ⟨rfl, hle, hnodup⟩
      | some inst =>
          have hsome : (alGet s.instances root).isSome = true := by
            rw [hg]
            rfl
          dsimp only
          rw [hg]
          dsimp only
          refine ⟨rfl, ?_, ?_⟩
          · rw [alSet_length_mem _ _ _ hsome]
            exact hle
          · rw [alKeys_alSet_isSome _ _ _ hsome]
            exact hnodup

theorem poolRun_inv (maxInstances : Nat) (evs : List PoolEvent) (hmax : 1 ≤ maxInstances) :
    (poolRun maxInstances evs).maxInstances = maxInstances ∧
    (poolRun maxInstances evs).instances.length ≤ maxInstances ∧
    (alKeys (poolRun maxInstances evs).instances).Nodup := by
  unfold poolRun
  have hgen : ∀ (s : PoolState), s.maxInstances = maxInstances →
      s.instances.length ≤ maxInstances → (alKeys s.instances).Nodup →
      (evs.foldl poolStep s).maxInstances = maxInstances ∧
      (evs.foldl poolStep s).instances.length ≤ maxInstances ∧
      (alKeys (evs.foldl poolStep s).instances).Nodup := by
    induction evs with
    | nil => exact fun s hm hl hn => ⟨hm, hl, hn⟩
    | cons ev rest ih =>
        intro s hm hl hn
        rw [List.foldl_cons]
        have hstep := poolStep_inv s ev (hm ▸ hl) hn (hm ▸ hmax)
        exact ih (poolStep s ev) (hstep.1.trans hm) (hm ▸ hstep.2.1) hstep.2.2
  exact hgen (poolInit maxInstances) rfl (by simp [poolInit]) (by simp [poolInit, alKeys])

/-- Claim C8: a pool run never holds more than `maxInstances` entries after
any `get` returns (for the nondegenerate capacities the program uses,
`maxInstances ≥ 1`), and eviction is least-recently-used: at capacity 2,
after `get A`, `get B`, `get C` on distinct roots, the client created for A
has been shut down and the pool holds exactly B and C, in that order. -/
theorem pool_capacity_lru (maxInstances : Nat) (evs : List PoolEvent) (A B C : String)
    (hmax : 1 ≤ maxInstances) (hAB : A ≠ B) (hAC : A ≠ C) (hBC : B ≠ C) :
    (poolRun maxInstances evs).instances.length ≤ maxInstances ∧
    alKeys (poolRun 2 [.get A, .get B, .get C]).instances = [B, C] ∧
    (poolRun 2 [.get A, .get B, .get C]).shutdownIds
      = [(pool_get_client (poolInit 2) A).2] := by
  refine ⟨(poolRun_inv maxInstances evs hmax).2.1, ?_, ?_⟩ <;>
    simp [poolRun, poolStep, pool_get_client, pool_create_instance, evict_if_needed,
      oldestRoot, oldestStep, shutdown_instance, poolInit, alGet, alSet, alErase, alKeys,
      hAB, hAC, hBC, Ne.symm hAB, Ne.symm hAC, Ne.symm hBC]

/-- Witness for C8 at capacity 2 with roots "/p1", "/p2", "/p3". -/
theorem pool_capacity_lru_witness :
    (poolRun 2 [.get "/p1", .get "/p2", .get "/p3", .get "/p2"]).instances.length ≤ 2 ∧
    alKeys (poolRun 2 [.get "/p1", .get "/p2", .get "/p3"]).instances = ["/p2", "/p3"] ∧
    (poolRun 2 [.get "/p1", .get "/p2", .get "/p3"]).shutdownIds
      = [(pool_get_client (poolInit 2) "/p1").2] :=
  pool_capacity_lru 2 [.get "/p1", .get "/p2", .get "/p3", .get "/p2"] "/p1" "/p2" "/p3"
    (by decide) (by decide) (by decide) (by decide)

/-! ## Claim C1 — the project-root detector (spec-modelled) -/

theorem mem_ancestorChain (d l : List String) :
    d ∈ ancestorChain l ↔ d <:+ l := by
  induction l with
  | nil => simp [ancestorChain]
  | cons seg rest ih => simp [ancestorChain, ih, List.suffix_cons_iff]

theorem find_ancestor_maximal (fs : DetectFS) (start d : List String)
    (h : (ancestorChain start).find? fs.hasProjectMarker = some d) :
    ∀ d', d' <:+ start → fs.hasProjectMarker d' = true → d'.length ≤ d.length := by
  induction start with
  | nil =>
      intro d' hd' hm'
      rw [List.suffix_nil.mp hd']
      simp
  | cons seg rest ih =>
      intro d' hd' hm'
      rw [ancestorChain] at h
      cases hm : fs.hasProjectMarker (seg :: rest) with
      | true =>
          rw [List.find?_cons_of_pos _ hm] at h
          injection h with hd
          rw [← hd]
          exact List.IsSuffix.length_le hd'
      | false =>
          rw [List.find?_cons_of_neg _ (by simp [hm])] at h
          rcases List.suffix_cons_iff.mp hd' with hcase | hcase
          · rw [hcase] at hm'
            rw [hm'] at hm
            cases hm
          · exact ih h d' hcase hm'

/-- Claim C1 (spec-modelled, since `find_project_root` is imported from
`ada_mcp.als.process` but defined nowhere in the source tree): the detector
walks ancestor directories — starting at the path itself when it is a
directory, else at its parent — toward the filesystem root and returns the
first (nearest, i.e. longest) ancestor containing a project marker
(`alire.toml`, a `*.gpr` file, or `.git`); if no ancestor has a marker it
returns the original path's nearest directory. -/
theorem project_root_detector_spec (fs : DetectFS) (p : List String) :
    ((∃ d, d <:+ projStart fs p ∧ fs.hasProjectMarker d = true) →
      fs.hasProjectMarker (find_project_root fs p) = true ∧
      find_project_root fs p <:+ projStart fs p ∧
      (∀ d, d <:+ projStart fs p → fs.hasProjectMarker d = true →
        d.length ≤ (find_project_root fs p).length)) ∧
    ((∀ d, d <:+ projStart fs p → fs.hasProjectMarker d = false) →
      find_project_root fs p = projStart fs p) := by
  unfold find_project_root
  constructor
  · rintro ⟨d0, hd0s, hd0m⟩
    cases hf : (ancestorChain (projStart fs p)).find? fs.hasProjectMarker with
    | none =>
        have hnone := List.find?_eq_none.mp hf d0 ((mem_ancestorChain _ _).mpr hd0s)
        rw [hd0m] at hnone
        exact absurd rfl hnone
    | some d =>
        refine ⟨List.find?_some hf, ?_, ?_⟩
        · exact (mem_ancestorChain _ _).mp (List.mem_of_find?_eq_some hf)
        · exact find_ancestor_maximal fs (projStart fs p) d hf
  · intro hnone
    cases hf : (ancestorChain (projStart fs p)).find? fs.hasProjectMarker with
    | none => rfl
    | some d =>
        have hmem : d <:+ projStart fs p :=
          (mem_ancestorChain _ _).mp (List.mem_of_find?_eq_some hf)
        have := hnone d hmem
        rw [List.find?_some hf] at this
        cases this

/-- Witness for C1 on a filesystem where `/proj` carries the marker and the
input is the file path `/proj/src/main.adb` (segments stored deepest
first). -/
theorem project_root_detector_spec_witness :
    fs0.hasProjectMarker (find_project_root fs0 ["main.adb", "src", "proj"]) = true ∧
    find_project_root fs0 ["main.adb", "src", "proj"] <:+
      projStart fs0 ["main.adb", "src", "proj"] ∧
    (∀ d, d <:+ projStart fs0 ["main.adb", "src", "proj"] →
      fs0.hasProjectMarker d = true →
      d.length ≤ (find_project_root fs0 ["main.adb", "src", "proj"]).length) :=
  (project_root_detector_spec fs0 ["main.adb", "src", "proj"]).1
    ⟨["proj"], by decide, by decide⟩

/-! ### C7: URI round-trip lemmas -/

theorem quoteSafe_hexDigit : ∀ n : Fin 16, quoteSafe (hexDigitChar n.val) = true := by decide

theorem hexDigit_ne_percent : ∀ n : Fin 16, ¬(hexDigitChar n.val = '%') := by decide

theorem hexVal_hexDigit : ∀ n : Fin 16, hexVal (hexDigitChar n.val) = some n.val := by decide

theorem percentEncode_mem (l : List Char) :
    ∀ c ∈ percentEncode l, quoteSafe c = true ∨ c = '%' := by
  induction l with
  | nil => intro c hc; cases hc
  | cons a t ih =>
      intro c hc
      rw [percentEncode] at hc
      rcases List.mem_append.mp hc with h | h
      · rw [percentEncodeChar] at h
        by_cases hq : quoteSafe a
        · rw [if_pos hq] at h
          rw [List.mem_singleton] at h
          subst h
          exact Or.inl hq
        · rw [if_neg hq] at h
          simp only [List.mem_cons, List.not_mem_nil, or_false] at h
          rcases h with rfl | rfl | rfl
          · exact Or.inr rfl
          · exact Or.inl (quoteSafe_hexDigit ⟨a.toNat / 16 % 16, Nat.mod_lt _ (by norm_num)⟩)
          · exact Or.inl (quoteSafe_hexDigit ⟨a.toNat % 16, Nat.mod_lt _ (by norm_num)⟩)
      · exact ih c h

theorem percentDecodeAux_safe (c : Char) (t : List Char) (h : ¬(c = '%')) :
    percentDecodeAux c t = c :: percentDecode t := by
  cases t with
  | nil => rfl
  | cons d r =>
      rw [percentDecode]
      rw [percentDecodeAux.eq_def]
      simp only [if_neg h]

theorem percentDecodeAux_escape (d1 d2 : Char) (t : List Char) (a b : Nat)
    (h1 : hexVal d1 = some a) (h2 : hexVal d2 = some b) (hne : ¬(d1 = '%')) :
    percentDecodeAux '%' (d1 :: d2 :: t) = Char.ofNat (16 * a + b) :: percentDecode t := by
  cases t with
  | nil =>
      rw [percentDecodeAux.eq_def]
      simp only [if_pos rfl, if_neg hne, h1, h2, percentDecode, if_true]
  | cons e r3 =>
      rw [percentDecodeAux.eq_def]
      simp only [if_pos rfl, if_neg hne, h1, h2, percentDecode, if_true]

theorem percentDecode_percentEncode (l : List Char) (h : ∀ c ∈ l, c.toNat < 128) :
    percentDecode (percentEncode l) = l := by
  induction l with
  | nil => rfl
  | cons c t ih =>
      have hc : c.toNat < 128 := h c (List.mem_cons_self c t)
      have ht : ∀ x ∈ t, x.toNat < 128 := fun x hx => h x (List.mem_cons_of_mem c hx)
      rw [percentEncode, percentEncodeChar]
      by_cases hq : quoteSafe c
      · rw [if_pos hq]
        have hcnp : ¬(c = '%') := by
          intro hcp
          rw [hcp] at hq
          exact absurd hq (by decide)
        show percentDecodeAux c (percentEncode t) = c :: t
        rw [percentDecodeAux_safe c _ hcnp, ih ht]
      · rw [if_neg hq]
        show percentDecodeAux '%'
          (hexDigitChar (c.toNat / 16 % 16) :: hexDigitChar (c.toNat % 16) :: percentEncode t) =
          c :: t
        rw [percentDecodeAux_escape _ _ _ _ _
              (hexVal_hexDigit ⟨c.toNat / 16 % 16, Nat.mod_lt _ (by norm_num)⟩)
              (hexVal_hexDigit ⟨c.toNat % 16, Nat.mod_lt _ (by norm_num)⟩)
              (hexDigit_ne_percent ⟨c.toNat / 16 % 16, Nat.mod_lt _ (by norm_num)⟩),
            ih ht]
        have harith : 16 * (c.toNat / 16 % 16) + c.toNat % 16 = c.toNat := by omega
        rw [harith, Char.ofNat_toNat]

theorem splitParams_no_semi (l : List Char) (h : ∀ c ∈ l, (c == ';') = false) :
    splitParams l = l := by
  have hdrop : ((l.reverse.span fun c => !(c == '/')).1.reverse.span
      fun c => !(c == ';')).2 = [] := by
    rw [List.span_eq_take_drop]
    apply List.dropWhile_eq_nil_iff.mpr
    intro c hc
    have h1 : c ∈ (l.reverse.span fun c => !(c == '/')).1 := List.mem_reverse.mp hc
    rw [List.span_eq_take_drop] at h1
    have h2 : c ∈ l.reverse := (List.takeWhile_sublist _).subset h1
    have h3 : c ∈ l := List.mem_reverse.mp h2
    rw [Bool.not_eq_true', h c h3]
  unfold splitParams
  simp only [hdrop, List.isEmpty_nil, if_pos]

theorem uriToFile_fileToUri (l : List Char)
    (habs : l.head? = some '/')
    (hascii : ∀ c ∈ l, c.toNat < 128)
    (hdrive : ¬(l[2]? = some ':')) :
    uriToFileChars (fileToUriChars l) = .ok l := by
  cases l with
  | nil => cases habs
  | cons a t =>
      rw [List.head?_cons] at habs
      injection habs with ha
      subst ha
      have henc : percentEncode ('/' :: t) = '/' :: percentEncode t := rfl
      have hparse : urlparsePath (fileToUriChars ('/' :: t)) =
          ⟨"file".data, [],
            splitParams (('/' :: percentEncode t).takeWhile
              (fun c => !(c == '?' || c == '#')))⟩ := rfl
      have hnoqh : ('/' :: percentEncode t).takeWhile
          (fun c => !(c == '?' || c == '#')) = '/' :: percentEncode t := by
        apply List.takeWhile_eq_self_iff.mpr
        intro c hc
        rcases List.mem_cons.mp hc with rfl | hc
        · rfl
        · rcases percentEncode_mem t c hc with hq | rfl
          · simp only [Bool.not_eq_true', Bool.or_eq_false_iff, beq_eq_false_iff_ne]
            constructor
            · intro hcq; rw [hcq] at hq; exact absurd hq (by decide)
            · intro hcq; rw [hcq] at hq; exact absurd hq (by decide)
          · rfl
      have hsp : splitParams ('/' :: percentEncode t) = '/' :: percentEncode t := by
        apply splitParams_no_semi
        intro c hc
        rcases List.mem_cons.mp hc with rfl | hc
        · decide
        · rcases percentEncode_mem t c hc with hq | rfl
          · rw [beq_eq_false_iff_ne]
            intro hcq
            rw [hcq] at hq
            exact absurd hq (by decide)
          · decide
      have hsd : stripDrive ('/' :: t) = '/' :: t := by
        cases t with
        | nil => rfl
        | cons b t2 =>
            cases t2 with
            | nil => rfl
            | cons c2 t3 =>
                have hc2 : ¬('/' = '/' ∧ c2 = ':') := by
                  rintro ⟨-, hc⟩
                  apply hdrive
                  subst hc
                  simp
                rw [stripDrive, if_neg hc2]
      unfold uriToFileChars
      rw [hparse]
      dsimp only
      rw [if_pos rfl, hnoqh, hsp, ← henc,
          percentDecode_percentEncode ('/' :: t) hascii, hsd]

/-- Claim C7 (amended): for an absolute canonical POSIX path made of ASCII
characters whose third character is not `:` (so the Windows drive-letter
fixup of `uri_to_file` does not fire), converting the path to a `file://`
URI and back yields the path unchanged. -/
theorem uri_roundtrip (p : String)
    (habs : p.data.head? = some '/')
    (hascii : ∀ c ∈ p.data, c.toNat < 128)
    (hdrive : ¬(p.data[2]? = some ':')) :
    uri_to_file (file_to_uri p) = .ok p := by
  rw [uri_to_file, file_to_uri]
  have hdata : (String.mk (fileToUriChars p.data)).data = fileToUriChars p.data := rfl
  rw [hdata, uriToFile_fileToUri p.data habs hascii hdrive]
  show Except.ok (String.mk p.data) = Except.ok p
  cases p
  rfl

/-- Witness for C7 at the escaped path `/home/u 1/a.adb` (the space is
percent-encoded on the way out and decoded on the way back). -/
theorem uri_roundtrip_witness :
    uri_to_file (file_to_uri "/home/u 1/a.adb") = .ok "/home/u 1/a.adb" :=
  uri_roundtrip "/home/u 1/a.adb" (by decide) (by decide) (by decide)

/-- Counterexample for C7 as stated over all absolute canonical paths: the
drive-letter fixup in `uri_to_file` (lines 40-44 of `utils/uri.py`) strips
the leading slash of the POSIX path `/c:/x`, so the round trip returns
`c:/x` instead of the original path. -/
theorem uri_roundtrip_counterexample :
    uri_to_file (file_to_uri "/c:/x") = .ok "c:/x" ∧ ("c:/x" : String) ≠ "/c:/x" := by
  constructor
  · rfl
  · decide

end AdaMcp
